import Mathlib

set_option maxHeartbeats 1000000
set_option maxRecDepth 8000

namespace APV

/-- Characters of a JavaScript string, modelled as a list of characters. -/
abbrev Str := List Char

/-- Concatenation of the lists produced by `f`, in order (models nested pushes). -/
def lflat (l : List α) (f : α → List β) : List β :=
  match l with
  | [] => []
  | x :: xs => f x ++ lflat xs f

/-- First-seen-order deduplication with an explicit seen accumulator.
Models iteration order of JavaScript object keys / `Map` keys (insertion order). -/
def firstSeenAux [DecidableEq α] (seen : List α) : List α → List α
  | [] => []
  | x :: xs => if x ∈ seen then firstSeenAux seen xs else x :: firstSeenAux (x :: seen) xs

/-- Keys of a JavaScript object in insertion order. -/
def firstSeen [DecidableEq α] (l : List α) : List α := firstSeenAux [] l

/-- Whitespace test used by JavaScript `trim` / `\s` (ASCII subset; the source
never feeds other whitespace). -/
def isWs (c : Char) : Bool := c = ' ' || c = '\t' || c = '\n' || c = '\r'

/-- JavaScript `String.prototype.trim`. -/
def trimL (s : Str) : Str := ((s.dropWhile isWs).reverse.dropWhile isWs).reverse

/-- JavaScript `String.prototype.slice(a, b)` for `0 ≤ a ≤ b` (the only uses in the source). -/
def sliceL (a b : Nat) (s : Str) : Str := (s.drop a).take (b - a)

/-- JavaScript `text.split('\n')`. -/
def splitLines : Str → List Str
  | [] => [[]]
  | c :: rest =>
    match splitLines rest, decide (c = '\n') with
    | ls, true => [] :: ls
    | [], false => [[c]]
    | l :: ls, false => (c :: l) :: ls

/-- JavaScript `String.prototype.startsWith`. -/
def startsWithL : Str → Str → Bool
  | [], _ => true
  | _ :: _, [] => false
  | c :: cs, d :: ds => c = d && startsWithL cs ds

/-- Helper splitting a string with no leading whitespace at whitespace runs. -/
def wsSplitCore : Str → List Str
  | [] => []
  | c :: rest =>
    if isWs c then wsSplitCore rest
    else
      match wsSplitCore rest, rest with
      | [], _ => [[c]]
      | t :: ts, r :: _ => if isWs r then [c] :: t :: ts else (c :: t) :: ts
      | _ :: _, [] => [[c]]

/-- JavaScript `s.split(/\s+/)`: on the empty string it yields `[""]`,
otherwise (for the trimmed strings the source feeds it) the whitespace-free tokens. -/
def wsSplit (s : Str) : List Str := if s = [] then [[]] else wsSplitCore s

/-- Accumulates a run of decimal digits: value so far, digit count, running input. -/
def takeDigitsAcc (n cnt : Nat) : Str → Nat × Nat × Str
  | [] => (n, cnt, [])
  | c :: rest =>
    if c.isDigit then takeDigitsAcc (n * 10 + (c.toNat - 48)) (cnt + 1) rest
    else (n, cnt, c :: rest)

/-- Unsigned decimal float literal with optional fraction and exponent, longest
valid prefix, as consumed by JavaScript `parseFloat`/`Number` (hex, `Infinity`
and other exotic forms never occur in the source's inputs and are not modelled).
Returns the value and the unconsumed remainder, or `none` when no digit is found. -/
def parseUnsignedFloat (s : Str) : Option (Rat × Str) :=
  let ip := takeDigitsAcc 0 0 s
  let fr : Rat × Nat × Str :=
    match ip.2.2 with
    | '.' :: rest =>
      let fp := takeDigitsAcc 0 0 rest
      (((fp.1 : Rat) / (10 : Rat) ^ fp.2.1), fp.2.1, fp.2.2)
    | other => (0, 0, other)
  if ip.2.1 = 0 ∧ fr.2.1 = 0 then none
  else
    let base : Rat := (ip.1 : Rat) + fr.1
    match fr.2.2 with
    | e :: rest =>
      if e = 'e' ∨ e = 'E' then
        let sgnRest : Bool × Str :=
          match rest with
          | '+' :: rr => (false, rr)
          | '-' :: rr => (true, rr)
          | _ => (false, rest)
        let ex := takeDigitsAcc 0 0 sgnRest.2
        if ex.2.1 = 0 then some (base, fr.2.2)
        else if sgnRest.1 then some (base / (10 : Rat) ^ ex.1, ex.2.2)
        else some (base * (10 : Rat) ^ ex.1, ex.2.2)
      else some (base, fr.2.2)
    | [] => some (base, [])

/-- JavaScript `parseFloat` (decimal forms), `none` modelling `NaN`. -/
def jsParseFloat (s : Str) : Option Rat :=
  let t := s.dropWhile isWs
  match t with
  | '-' :: rest => (parseUnsignedFloat rest).map (fun p => -p.1)
  | '+' :: rest => (parseUnsignedFloat rest).map (fun p => p.1)
  | _ => (parseUnsignedFloat t).map (fun p => p.1)

/-- JavaScript `parseInt` with radix 10 behaviour (the source's fields are
decimal), `none` modelling `NaN`. -/
def jsParseInt (s : Str) : Option Int :=
  let t := s.dropWhile isWs
  let su : Bool × Str :=
    match t with
    | '-' :: rest => (true, rest)
    | '+' :: rest => (false, rest)
    | _ => (false, t)
  let d := takeDigitsAcc 0 0 su.2
  if d.2.1 = 0 then none
  else if su.1 then some (-(d.1 : Int)) else some (d.1 : Int)

/-- JavaScript `Number(str)` on decimal strings: trims, empty string is `0`,
otherwise the whole remainder must be a signed decimal literal (`none` = `NaN`). -/
def jsNumber (s : Str) : Option Rat :=
  let t := trimL s
  if t = [] then some 0
  else
    let su : Bool × Str :=
      match t with
      | '-' :: rest => (true, rest)
      | '+' :: rest => (false, rest)
      | _ => (false, t)
    match parseUnsignedFloat su.2 with
    | some (v, []) => some (if su.1 then -v else v)
    | _ => none

/-- JavaScript `v || d` for a possibly-NaN number (`none` = NaN): NaN and 0 are falsy. -/
def jsOrRat (v : Option Rat) (d : Rat) : Rat :=
  match v with
  | none => d
  | some x => if x = 0 then d else x

/-- JavaScript `v || d` for a possibly-NaN integer. -/
def jsOrInt (v : Option Int) (d : Int) : Int :=
  match v with
  | none => d
  | some x => if x = 0 then d else x

/-- JavaScript `s || d` on strings: the empty string is falsy. -/
def jsOrStr (s d : Str) : Str := if s = [] then d else s

/-- Parsed ATOM/HETATM record, from `src/utils/pdbParser.js`. -/
structure Atom where
  serial : Int
  name : Str
  resName : Str
  chainID : Str
  resSeq : Int
  x : Rat
  y : Rat
  z : Rat
  occupancy : Rat
  tempFactor : Rat
  element : Str
deriving DecidableEq

/-- A JavaScript number that may be NaN (`none`). -/
abbrev JSNum := Option Rat

/-- Bond from a CONECT record: the pair `[atomSerial, targetSerial]` pushed by
`parsePDB`; the first component is unchecked and may be NaN. -/
abbrev Bond := JSNum × JSNum

/-- HELIX/SHEET record as parsed by `parsePDB`. -/
structure SSRec where
  startChain : Str
  startRes : Int
  endChain : Str
  endRes : Int
deriving DecidableEq

/-- Accumulated state of the line loop of `parsePDB` (also its result record:
`{atoms, bonds, secondaryStructures: {helices, sheets}, chains}` flattened). -/
structure PState where
  atoms : List Atom
  bonds : List Bond
  helices : List SSRec
  sheets : List SSRec
  chains : List Str
deriving DecidableEq

def initState : PState := ⟨[], [], [], [], []⟩

/-- `Set.prototype.add`; `Array.from` preserves insertion order. -/
def addChain (cs : List Str) (id : Str) : List Str := if id ∈ cs then cs else cs ++ [id]

/-- Field extraction of an ATOM/HETATM line (`pdbParser.js` lines 21–33). -/
def parseAtom (line : Str) : Atom :=
  { serial := jsOrInt (jsParseInt (trimL (sliceL 6 11 line))) 0
    name := jsOrStr (trimL (sliceL 12 16 line)) (['U', 'N', 'K'])
    resName := jsOrStr (trimL (sliceL 17 20 line)) (['U', 'N', 'K'])
    chainID := jsOrStr (trimL (sliceL 21 22 line)) (['A'])
    resSeq := jsOrInt (jsParseInt (trimL (sliceL 22 26 line))) 0
    x := jsOrRat (jsParseFloat (trimL (sliceL 30 38 line))) 0
    y := jsOrRat (jsParseFloat (trimL (sliceL 38 46 line))) 0
    z := jsOrRat (jsParseFloat (trimL (sliceL 46 54 line))) 0
    occupancy := jsOrRat (jsParseFloat (trimL (sliceL 54 60 line))) 1
    tempFactor := jsOrRat (jsParseFloat (trimL (sliceL 60 66 line))) 0
    element :=
      jsOrStr (trimL (sliceL 76 78 line))
        (match trimL (sliceL 12 16 line) with
         | c :: _ => [c]
         | [] => ['C']) }

/-- Bonds pushed for one CONECT line body (`pdbParser.js` lines 37–44),
without the startsWith guard (the guard lives in `stepLine`). -/
def conectOf (line : Str) : List Bond :=
  let connect := (wsSplit (trimL (line.drop 6))).map jsNumber
  if connect.length < 2 then []
  else
    match connect with
    | [] => []
    | a0 :: rest =>
      lflat rest (fun t =>
        match t with
        | some v => [(a0, some v)]
        | none => [])

/-- HELIX record extraction (`pdbParser.js` lines 46–51). -/
def parseHelix (line : Str) : SSRec :=
  { startChain := jsOrStr (trimL (sliceL 19 20 line)) (['A'])
    startRes := jsOrInt (jsParseInt (trimL (sliceL 21 25 line))) 0
    endChain := jsOrStr (trimL (sliceL 31 32 line)) (['A'])
    endRes := jsOrInt (jsParseInt (trimL (sliceL 33 37 line))) 0 }

/-- SHEET record extraction (`pdbParser.js` lines 52–58). -/
def parseSheet (line : Str) : SSRec :=
  { startChain := jsOrStr (trimL (sliceL 21 22 line)) (['A'])
    startRes := jsOrInt (jsParseInt (trimL (sliceL 22 26 line))) 0
    endChain := jsOrStr (trimL (sliceL 32 33 line)) (['A'])
    endRes := jsOrInt (jsParseInt (trimL (sliceL 33 37 line))) 0 }

def atomTag : Str := ['A', 'T', 'O', 'M']
def hetatmTag : Str := ['H', 'E', 'T', 'A', 'T', 'M']
def conectTag : Str := ['C', 'O', 'N', 'E', 'C', 'T']
def helixTag : Str := ['H', 'E', 'L', 'I', 'X']
def sheetTag : Str := ['S', 'H', 'E', 'E', 'T']

/-- True when the line starts an ATOM or HETATM record. -/
def isAtomLine (line : Str) : Bool :=
  startsWithL atomTag line || startsWithL hetatmTag line

/-- Body of the `lines.forEach` loop of `parsePDB`.  The slicing and numeric
helpers are total, so the JavaScript per-line `try/catch` never fires. -/
def stepLine (st : PState) (line : Str) : PState :=
  if isAtomLine line then
    let a := parseAtom line
    { st with atoms := st.atoms ++ [a], chains := addChain st.chains a.chainID }
  else if startsWithL conectTag line then
    { st with bonds := st.bonds ++ conectOf line }
  else if startsWithL helixTag line then
    { st with helices := st.helices ++ [parseHelix line] }
  else if startsWithL sheetTag line then
    { st with sheets := st.sheets ++ [parseSheet line] }
  else st

def invalidMsg : Str := ("Invalid PDB text provided").toList
def noAtomsMsg : Str := ("No valid atoms found in PDB file").toList

/-- `parsePDB` from `src/utils/pdbParser.js`.  The JavaScript type guard
`typeof pdbText !== 'string'` is enforced here by the type of `text`. -/
def parsePDB (text : Str) : Except Str PState :=
  if trimL text = [] then .error invalidMsg
  else
    let st := (splitLines text).foldl stepLine initState
    if st.atoms.length = 0 then .error noAtomsMsg
    else .ok st

/-- The atoms accumulated by the line loop of `parsePDB` on a given text. -/
def atomsOf (text : Str) : List Atom :=
  ((splitLines text).foldl stepLine initState).atoms

/-- Bonds contributed to `parsePDB`'s output by one line. -/
def conectBondsOf (line : Str) : List Bond :=
  if startsWithL conectTag line then conectOf line else []

/-- RGB components of a `THREE.Color` (each in `[0,1]`). -/
structure Color where
  r : Rat
  g : Rat
  b : Rat
deriving DecidableEq

/-- `new THREE.Color(hex)`: components extracted from the 24-bit value. -/
def hexColor (h : Nat) : Color :=
  ⟨((h / 65536 % 256 : Nat) : Rat) / 255, ((h / 256 % 256 : Nat) : Rat) / 255,
    ((h % 256 : Nat) : Rat) / 255⟩

/-- Chain palette of `src/js/core/ProteinVisualizer.js` (20 entries). -/
def chainColors20 : List Nat :=
  [0x1f77b4, 0xff7f0e, 0x2ca02c, 0xd62728, 0x9467bd,
   0x8c564b, 0xe377c2, 0x7f7f7f, 0xbcbd22, 0x17becf,
   0xaec7e8, 0xffbb78, 0x98df8a, 0xff9896, 0xc5b0d5,
   0xc49c94, 0xf7b6d2, 0xc7c7c7, 0xdbdb8d, 0x9edae5]

/-- Chain palette of the first `ProteinVisualizer` in `src/unnamed/part_003` (15 entries). -/
def chainColors15 : List Nat :=
  [0x1f77b4, 0xff7f0e, 0x2ca02c, 0xd62728, 0x9467bd,
   0x8c564b, 0xe377c2, 0x7f7f7f, 0xbcbd22, 0x17becf,
   0xaec7e8, 0xffbb78, 0x98df8a, 0xff9896, 0xc5b0d5]

/-- `this.chainColorMap`: a JavaScript `Map` in insertion order. -/
abbrev CMap := List (Str × Color)

/-- `Map.prototype.get`/`has` (first binding wins; the code never rebinds a key). -/
def cLookup (m : CMap) (k : Str) : Option Color :=
  match m with
  | [] => none
  | (k2, c) :: rest => if k = k2 then some c else cLookup rest k

/-- `getChainColor` of `part_003` (palette of 15): look up, or assign
`chainColors[this.chainColorMap.size % chainColors.length]` on a miss. -/
def getChainColorB (m : CMap) (id : Str) : Color × CMap :=
  match cLookup m id with
  | some c => (c, m)
  | none =>
    let c := hexColor (chainColors15.getD (m.length % chainColors15.length) 0)
    (c, m ++ [(id, c)])

/-- Inner fold of the `part_003` `assignChainColors` (palette of 15). -/
def assignChainColorsBAux (st : CMap × Nat) (ids : List Str) : CMap × Nat :=
  ids.foldl
    (fun (st : CMap × Nat) id =>
      if (cLookup st.1 id).isSome then st
      else (st.1 ++ [(id, hexColor (chainColors15.getD (st.2 % chainColors15.length) 0))],
            st.2 + 1))
    st

/-- `assignChainColors` of `part_003` (palette of 15): the per-call counter
`colorIndex` starts at 0 and only increments on a fresh id. -/
def assignChainColorsB (m : CMap) (ids : List Str) : CMap :=
  (assignChainColorsBAux (m, 0) ids).1

/-- `getChainColor` of `src/js/core/ProteinVisualizer.js` (palette of 20). -/
def getChainColorVis (m : CMap) (id : Str) : Color × CMap :=
  match cLookup m id with
  | some c => (c, m)
  | none =>
    let c := hexColor (chainColors20.getD (m.length % chainColors20.length) 0)
    (c, m ++ [(id, c)])

/-- Inner fold of `assignChainColors` (`ProteinVisualizer.js` lines 365–375)
with explicit map and `colorIndex` state. -/
def assignChainColorsAux (st : CMap × Nat) (ids : List Str) : CMap × Nat :=
  ids.foldl
    (fun (st : CMap × Nat) id =>
      if (cLookup st.1 id).isSome then st
      else (st.1 ++ [(id, hexColor (chainColors20.getD (st.2 % chainColors20.length) 0))],
            st.2 + 1))
    st

/-- `assignChainColors` of `src/js/core/ProteinVisualizer.js`: `colorIndex`
restarts at 0 on every call. -/
def assignChainColorsVis (m : CMap) (ids : List Str) : CMap :=
  (assignChainColorsAux (m, 0) ids).1

/-- Property normalisation applied by `preprocessAtoms` in `part_003`:
`chainID || 'A'`, `resSeq || 1`, `resName || 'UNK'`, `name || element || 'X'`. -/
def normAtom (a : Atom) : Atom :=
  { a with
    chainID := jsOrStr a.chainID (['A'])
    resSeq := if a.resSeq = 0 then 1 else a.resSeq
    resName := jsOrStr a.resName (['U', 'N', 'K'])
    name := jsOrStr a.name (jsOrStr a.element (['X'])) }

/-- Residue grouping key `chainID_resSeq_resName` of `preprocessAtoms`,
modelled as a tuple (the JavaScript template string is injective on these
fields because `resSeq` prints without underscores). -/
def resKey (a : Atom) : Str × Int × Str := (a.chainID, a.resSeq, a.resName)

/-- Squared Euclidean distance `dx*dx + dy*dy + dz*dz`. -/
def distSq (a b : Atom) : Rat :=
  (a.x - b.x) * (a.x - b.x) + (a.y - b.y) * (a.y - b.y) + (a.z - b.z) * (a.z - b.z)

/-- All index-ordered pairs of a list, as visited by the nested loops
`for i; for j = i+1`. -/
def allPairs : List α → List (α × α)
  | [] => []
  | x :: xs => xs.map (fun y => (x, y)) ++ allPairs xs

/-- One emitted line segment: two endpoint atoms and the colour pushed for both
vertices.  `positions`/`colors` arrays are recovered by flattening. -/
structure Seg where
  a : Atom
  b : Atom
  col : Color
deriving DecidableEq

/-- The six floats pushed into `positions` for one bond. -/
def seg6pos (s : Seg) : List Rat := [s.a.x, s.a.y, s.a.z, s.b.x, s.b.y, s.b.z]

/-- The six floats pushed into `colors` for one bond. -/
def seg6col (s : Seg) : List Rat := [s.col.r, s.col.g, s.col.b, s.col.r, s.col.g, s.col.b]

/-- A built `THREE.BufferGeometry` with position and color attributes. -/
structure Geometry where
  positions : List Rat
  colors : List Rat
deriving DecidableEq

/-- `setAttribute('position'/'color', ...)` from the pushed arrays. -/
def geomOfSegs (segs : List Seg) : Geometry :=
  { positions := lflat segs seg6pos, colors := lflat segs seg6col }

/-- The atom pairs of a residue group bonded by `generateIntraResidueBonds`:
index-ordered pairs with `distSq <= BOND_DISTANCE_SQ_THRESHOLD` (= 2.0² = 4.0). -/
def intraPairs (g : List Atom) : List (Atom × Atom) :=
  (allPairs g).filter (fun p => decide (distSq p.1 p.2 ≤ 4))

/-- Per-residue step of `generateIntraResidueBonds`. -/
def genIntraStep (norm : List Atom) (st : CMap × List Seg) (k : Str × Int × Str) :
    CMap × List Seg :=
  let g := norm.filter (fun a => decide (resKey a = k))
  match g.head? with
  | none => st
  | some a0 =>
    let cm := getChainColorB st.1 a0.chainID
    (cm.2, st.2 ++ (intraPairs g).map (fun p => ⟨p.1, p.2, cm.1⟩))

/-- `generateIntraResidueBonds` (`part_003` lines 225–256): for each residue
group (in first-seen key order), bond every index-ordered atom pair within the
squared covalent threshold, coloured with the chain colour of the group's
first atom. -/
def genIntra (m : CMap) (keys : List (Str × Int × Str)) (norm : List Atom) :
    CMap × List Seg :=
  keys.foldl (genIntraStep norm) (m, [])

/-- `Number.MAX_VALUE` = (2 − 2⁻⁵²)·2¹⁰²³ = 2¹⁰²⁴ − 2⁹⁷¹. -/
def jsMaxValue : Rat := ((2 ^ 1024 - 2 ^ 971 : Nat) : Rat)

/-- Nested iteration `for (atom1 of currentResAtoms) for (atom2 of nextResAtoms)`. -/
def rpairs (cur next : List Atom) : List (Atom × Atom) :=
  lflat cur (fun a1 => next.map (fun a2 => (a1, a2)))

/-- One step of the closest-pair scan: strict improvement under 25.0 wins. -/
def closestPairStep (st : Option (Atom × Atom) × Rat) (p : Atom × Atom) :
    Option (Atom × Atom) × Rat :=
  let d := distSq p.1 p.2
  if d < st.2 ∧ d < 25 then (some p, d) else st

/-- Closest-pair fallback of `generateBackboneBonds` (`part_003` lines 303–319):
`minDist` starts at `Number.MAX_VALUE`; a pair is taken only when strictly
closer than the best so far and `distSq < 25.0`. -/
def closestPair (cur next : List Atom) : Option (Atom × Atom) :=
  ((rpairs cur next).foldl closestPairStep (none, jsMaxValue)).1

/-- Residue-to-residue connection of `generateBackboneBonds`: the peptide bond
between the first atom named `C` and the first named `N` when both exist,
otherwise the closest-pair fallback. -/
def connectResidues (cur next : List Atom) : Option (Atom × Atom) :=
  match cur.find? (fun a => decide (a.name = ['C'])),
        next.find? (fun a => decide (a.name = ['N'])) with
  | some c, some n => some (c, n)
  | _, _ => closestPair cur next

/-- Stable insertion of `x` after entries with keys `≤ key x`. -/
def insSorted (key : α → Int) (x : α) : List α → List α
  | [] => [x]
  | y :: ys => if key x < key y then x :: y :: ys else y :: insSorted key x ys

/-- A stable sort by an integer key, modelling JavaScript `Array.prototype.sort`
with a numeric comparator (required to be stable since ES2019). -/
def stableSortBy (key : α → Int) (l : List α) : List α :=
  l.foldl (fun acc x => insSorted key x acc) []

/-- Consecutive pairs `(l[i], l[i+1])`. -/
def adjPairs (l : List α) : List (α × α) := l.zip l.tail

/-- Per-chain step of `generateBackboneBonds`. -/
def genBackboneStep (norm : List Atom) (st : CMap × List Seg) (c : Str) :
    CMap × List Seg :=
  let catoms := stableSortBy (fun a => a.resSeq) (norm.filter (fun a => decide (a.chainID = c)))
  let cm := getChainColorB st.1 c
  let resNums := stableSortBy (fun r => r) (firstSeen (catoms.map (fun a => a.resSeq)))
  let segs :=
    (adjPairs resNums).filterMap (fun rr =>
      if rr.2 - rr.1 > 1 then none
      else
        (connectResidues (catoms.filter (fun a => decide (a.resSeq = rr.1)))
          (catoms.filter (fun a => decide (a.resSeq = rr.2)))).map
          (fun p => (⟨p.1, p.2, cm.1⟩ : Seg)))
  (cm.2, st.2 ++ segs)

/-- `generateBackboneBonds` (`part_003` lines 264–331): per chain (sorted by
residue number, stable), connect adjacent residue numbers differing by exactly
1 via `connectResidues`, coloured with the chain colour. -/
def genBackbone (m : CMap) (chainKeys : List Str) (norm : List Atom) :
    CMap × List Seg :=
  chainKeys.foldl (genBackboneStep norm) (m, [])

/-- Spatial-hash cell of an atom for cell size `BOND_DISTANCE_THRESHOLD` = 2.0. -/
def cellOf (a : Atom) : Int × Int × Int := (⌊a.x / 2⌋, ⌊a.y / 2⌋, ⌊a.z / 2⌋)

/-- The grid object: cell key to atoms (with their original index standing for
JavaScript object identity), keys in insertion order. -/
abbrev Grid := List ((Int × Int × Int) × List (Nat × Atom))

/-- Append an atom to its cell bucket (new cells go last: object key insertion order). -/
def gridAdd (g : Grid) (key : Int × Int × Int) (v : Nat × Atom) : Grid :=
  match g with
  | [] => [(key, [v])]
  | (k2, l) :: rest => if key = k2 then (k2, l ++ [v]) :: rest else (k2, l) :: gridAdd rest key v

/-- `createSpatialGrid` (`part_003` lines 403–424). -/
def buildGrid (l : List (Nat × Atom)) : Grid :=
  l.foldl (fun g ia => gridAdd g (cellOf ia.2) ia) []

def gridGet (g : Grid) (key : Int × Int × Int) : List (Nat × Atom) :=
  match g with
  | [] => []
  | (k2, l) :: rest => if key = k2 then l else gridGet rest key

/-- Cell offsets in loop order `dx, dy, dz ∈ {-1,0,1}`. -/
def cellOffsets : List (Int × Int × Int) :=
  lflat [-1, 0, 1] (fun dx => lflat [-1, 0, 1] (fun dy => ([-1, 0, 1] : List Int).map (fun dz => (dx, dy, dz))))

/-- `getNeighborsFromGrid` (`part_003` lines 432–456). -/
def neighborsFromGrid (g : Grid) (a : Atom) : List (Nat × Atom) :=
  let c := cellOf a
  lflat cellOffsets (fun o => gridGet g (c.1 + o.1, c.2.1 + o.2.1, c.2.2 + o.2.2))

/-- `generateNearestNeighborBonds` (`part_003` lines 339–395): spatial grid over
the raw atoms, dedup via the `min-max` serial key set, bond pairs with
`distSq <= 4.0`.  `atom === neighbor` (object identity) is modelled by index. -/
def nnInnerStep (a : Nat × Atom) (col : Color) (st2 : List (Int × Int) × List Seg)
    (jb : Nat × Atom) : List (Int × Int) × List Seg :=
  if jb.1 = a.1 then st2
  else
    let key : Int × Int :=
      if a.2.serial < jb.2.serial then (a.2.serial, jb.2.serial)
      else (jb.2.serial, a.2.serial)
    if key ∈ st2.1 then st2
    else
      (st2.1 ++ [key],
       if distSq a.2 jb.2 ≤ 4 then st2.2 ++ [⟨a.2, jb.2, col⟩] else st2.2)

def nnOuterStep (grid : Grid) (st : CMap × List (Int × Int) × List Seg)
    (ia : Nat × Atom) : CMap × List (Int × Int) × List Seg :=
  let cm := getChainColorB st.1 (jsOrStr ia.2.chainID (['A']))
  let inner := (neighborsFromGrid grid ia.2).foldl (nnInnerStep ia cm.1) (st.2.1, st.2.2)
  (cm.2, inner.1, inner.2)

def genNearestNeighbor (m : CMap) (atoms : List Atom) : CMap × List Seg :=
  let chainKeys := firstSeen (atoms.map (fun a => jsOrStr a.chainID (['A'])))
  let m1 := assignChainColorsB m chainKeys
  let iatoms := atoms.enum
  let grid := buildGrid iatoms
  let res := iatoms.foldl (nnOuterStep grid) (m1, [], [])
  (res.1, res.2.2)

/-- Vertex count of the external `THREE.SphereGeometry(r, w, h)`:
`(w+1)*(h+1)` vertices. -/
def sphereVertexCount (w h : Nat) : Nat := (w + 1) * (h + 1)

/-- The red diagnostic colour pattern `[1,0,0]` repeated `n` times. -/
def redColors : Nat → List Rat
  | 0 => []
  | n + 1 => 1 :: 0 :: 0 :: redColors n

/-- `createFallbackGeometry` (`part_003` lines 556–572): a
`THREE.SphereGeometry(2, 16, 12)` (external collaborator, modelled by its
vertex count; positions content is the library's) with every vertex coloured
diagnostic red. -/
def fallbackGeometry : Geometry :=
  { positions := List.replicate (3 * sphereVertexCount 16 12) 0
    colors := redColors (sphereVertexCount 16 12) }

/-- The segment list produced by `createBondsGeometry` before geometry
construction: intra-residue bonds, then backbone bonds, then — when both are
empty — the nearest-neighbour fallback. -/
def bondSegments (m : CMap) (atoms : List Atom) : CMap × List Seg :=
  let norm := atoms.map normAtom
  let chainKeys := firstSeen (norm.map (fun a => a.chainID))
  let m0 := assignChainColorsB m chainKeys
  let keys := firstSeen (norm.map resKey)
  let r1 := genIntra m0 keys norm
  let r2 := genBackbone r1.1 chainKeys norm
  let s := r1.2 ++ r2.2
  if s = [] then genNearestNeighbor r2.1 atoms else (r2.1, s)

/-- `createBondsGeometry` (`part_003` lines 105–149): empty input or zero
generated bonds fall back to the red sphere; otherwise the pushed
position/color arrays become the geometry. -/
def createBondsGeometry (m : CMap) (atoms : List Atom) : Geometry :=
  if atoms = [] then fallbackGeometry
  else
    let s := (bondSegments m atoms).2
    if s = [] then fallbackGeometry else geomOfSegs s

/-- `createLinesRepresentation` of the first `ProteinVisualizer` in
`src/js/core/ProteinVisualizer.js` (lines 109–171): a C-alpha trace.  Groups
`CA` atoms by chain, connects consecutive residues closer than `distSq < 25`,
and returns `null` (`none`) when no segment was generated. -/
def createLinesRepresentationV1 (m : CMap) (atoms : List Atom) :
    Option Geometry × CMap :=
  let cas := atoms.filter (fun a => decide (a.name = ['C', 'A']))
  let chainKeys := firstSeen (cas.map (fun a => a.chainID))
  let m1 := assignChainColorsVis m chainKeys
  let r :=
    chainKeys.foldl
      (fun (st : CMap × List Seg) c =>
        let catoms := stableSortBy (fun a => a.resSeq) (cas.filter (fun a => decide (a.chainID = c)))
        let cm := getChainColorVis st.1 c
        (cm.2,
         st.2 ++ ((adjPairs catoms).filter (fun p => decide (distSq p.1 p.2 < 25))).map
           (fun p => ⟨p.1, p.2, cm.1⟩)))
      (m1, [])
  if r.2 = [] then (none, r.1) else (some (geomOfSegs r.2), r.1)

/-- Vertex/fragment program text pair returned by `loadShaderCode`. -/
structure ShaderCode where
  vertexShader : Str
  fragmentShader : Str
deriving DecidableEq

/-- A uniform value (vectors, colours, numbers, flags, the environment map).
`vec3n` stands for a vector the external library normalises. -/
inductive UVal where
  | vec3n (x y z : Rat)
  | col (c : Color)
  | num (q : Rat)
  | flag (b : Bool)
  | tex
deriving DecidableEq

abbrev UMap := List (Str × UVal)

/-- Generic association-list lookup (JavaScript property access). -/
def uLookup (m : UMap) (k : Str) : Option UVal :=
  match m with
  | [] => none
  | (k2, v) :: rest => if k = k2 then some v else uLookup rest k

def uLightDirectionKey : Str := ("uLightDirection").toList
def uLightColorKey : Str := ("uLightColor").toList
def uAmbientLightColorKey : Str := ("uAmbientLightColor").toList
def uBaseColorKey : Str := ("uBaseColor").toList
def uUseSolidColorKey : Str := ("uUseSolidColor").toList
def uOutlineColorKey : Str := ("uOutlineColor").toList
def uOutlineThicknessKey : Str := ("uOutlineThickness").toList
def uNumStepsKey : Str := ("uNumSteps").toList
def uRoughnessKey : Str := ("uRoughness").toList
def uMetallicKey : Str := ("uMetallic").toList
def uEnvMapKey : Str := ("uEnvMap").toList
def lightDirectionKey : Str := ("lightDirection").toList
def lightColorKey : Str := ("lightColor").toList
def ambientLightColorKey : Str := ("ambientLightColor").toList

/-- `standardUniforms` of `ShaderManager.createMaterial` (lines 94–118), with
the three lighting defaults overridable through `userUniforms.lightDirection`
etc. via `||` (the values are never falsy objects, so `||` is a plain default). -/
def standardUniforms (userUniforms : UMap) : UMap :=
  [(uLightDirectionKey, (uLookup userUniforms lightDirectionKey).getD (.vec3n 1 1 1)),
   (uLightColorKey, (uLookup userUniforms lightColorKey).getD (.col (hexColor 0xffffff))),
   (uAmbientLightColorKey,
     (uLookup userUniforms ambientLightColorKey).getD (.col (hexColor 0x404040))),
   (uBaseColorKey, .col (hexColor 0xffffff)),
   (uUseSolidColorKey, .flag true),
   (uOutlineColorKey, .col (hexColor 0x000000)),
   (uOutlineThicknessKey, .num (1 / 50)),
   (uNumStepsKey, .num 4),
   (uRoughnessKey, .num (3 / 10)),
   (uMetallicKey, .num (4 / 5)),
   (uEnvMapKey, .tex)]

/-- External `THREE.UniformsUtils.merge([a, b])`: keys of `a` in order with
values overridden by `b`, then the keys only `b` has. -/
def mergeUniforms (a b : UMap) : UMap :=
  a.map (fun kv => (kv.1, (uLookup b kv.1).getD kv.2)) ++
    b.filter (fun kv => (uLookup a kv.1).isNone)

/-- The `instanceof THREE.Color` coercion of `createMaterial` (lines 124–129)
for one key; `coerce` models the external `new THREE.Color(value)`. -/
def ensureColor (m : UMap) (k : Str) (coerce : UVal → Color) : UMap :=
  m.map (fun kv =>
    if kv.1 = k then
      match kv.2 with
      | .col c => (kv.1, UVal.col c)
      | v => (kv.1, UVal.col (coerce v))
    else kv)

/-- `side: isMesh ? THREE.FrontSide : THREE.DoubleSide`. -/
inductive MatSide where
  | front
  | double
deriving DecidableEq

/-- A material handed back to the caller: either the constructed
`THREE.ShaderMaterial` or the `MeshBasicMaterial` diagnostic fallback. -/
inductive Material where
  | shader (code : ShaderCode) (uniforms : UMap) (side : MatSide)
  | basic (colorHex : Nat) (wireframe : Bool)
deriving DecidableEq

inductive MatErr where
  | loadFail
  | constructFail
deriving DecidableEq

/-- The `try` body of `createMaterial` (`ShaderManager.js` lines 90–147):
shader-code loading is the awaited external fetch (its outcome is the `load`
argument), and `constructOk` is whether the external `ShaderMaterial`
construction succeeds. -/
def createMaterialTry (load : Except MatErr ShaderCode) (coerce : UVal → Color)
    (constructOk : Bool) (userUniforms : UMap) (isMesh : Bool) :
    Except MatErr Material :=
  match load with
  | .error e => .error e
  | .ok code =>
    let fin := mergeUniforms (standardUniforms userUniforms) userUniforms
    let fin := ensureColor fin uBaseColorKey coerce
    let fin := ensureColor fin uOutlineColorKey coerce
    if constructOk then
      .ok (.shader code fin (if isMesh then .front else .double))
    else .error .constructFail

/-- `createMaterial` with its surrounding `catch` (lines 149–153): any failure
becomes the magenta wireframe `MeshBasicMaterial({color: 0xff00ff, wireframe:
true})`.  The JavaScript function could in principle throw (`.error`) or
resolve to `undefined` (`none`); the model keeps both possibilities in the
result type. -/
def createMaterial (load : Except MatErr ShaderCode) (coerce : UVal → Color)
    (constructOk : Bool) (userUniforms : UMap) (isMesh : Bool) :
    Except MatErr (Option Material) :=
  match createMaterialTry load coerce constructOk userUniforms isMesh with
  | .ok m => .ok (some m)
  | .error _ => .ok (some (.basic 0xff00ff true))

/-- Renderer/camera state touched by `Exporter.exportPNG`. -/
structure RenderState where
  width : Rat
  height : Rat
  pixelRatio : Rat
  aspect : Rat
deriving DecidableEq

inductive ExpErr where
  | missing
  | badDims
  | renderFail
deriving DecidableEq

/-- `Exporter.exportPNG` (`src/js/utils/Exporter.js` lines 14–81), modelled as
state passing: validation throws before any mutation; otherwise the camera
aspect, pixel ratio and size are set for capture, the render/save body may
throw (`renderOk = false`), and the `finally` block runs either way —
restoring the stored size and aspect but setting the pixel ratio to
`window.devicePixelRatio` (`dpr`), which was never stored from the renderer. -/
def exportPNG (hasRenderer hasScene hasCamera : Bool) (w h : Rat) (dpr : Rat)
    (renderOk : Bool) (st : RenderState) : RenderState × Except ExpErr Unit :=
  if ¬(hasRenderer ∧ hasScene ∧ hasCamera) then (st, .error .missing)
  else if w ≤ 0 ∨ h ≤ 0 then (st, .error .badDims)
  else
    let st1 := { st with aspect := w / h }
    let st2 := { st1 with pixelRatio := 1 }
    let st3 := { st2 with width := w, height := h }
    let body : Except ExpErr Unit := if renderOk then .ok () else .error .renderFail
    let fin := { st3 with pixelRatio := dpr, width := st.width, height := st.height,
                          aspect := st.aspect }
    (fin, body)

theorem lflat_length_const (l : List α) (f : α → List β) (k : Nat)
    (h : ∀ x ∈ l, (f x).length = k) : (lflat l f).length = k * l.length := by
  induction l with
  | nil => simp [lflat]
  | cons x xs ih =>
    simp only [lflat, List.length_append, h x (List.mem_cons_self x xs), List.length_cons]
    rw [ih (fun y hy => h y (List.mem_cons_of_mem x hy))]
    ring

theorem mem_lflat {l : List α} {f : α → List β} {b : β} :
    b ∈ lflat l f ↔ ∃ a ∈ l, b ∈ f a := by
  induction l with
  | nil => simp [lflat]
  | cons x xs ih =>
    simp only [lflat, List.mem_append, ih, List.mem_cons]
    constructor
    · rintro (h | ⟨a, ha, hb⟩)
      · exact ⟨x, Or.inl rfl, h⟩
      · exact ⟨a, Or.inr ha, hb⟩
    · rintro ⟨a, (rfl | ha), hb⟩
      · exact Or.inl hb
      · exact Or.inr ⟨a, ha, hb⟩

theorem lflat_eq_nil {l : List α} {f : α → List β} :
    lflat l f = [] ↔ ∀ a ∈ l, f a = [] := by
  induction l with
  | nil => simp [lflat]
  | cons x xs ih => simp [lflat, ih]

theorem countP_lflat (l : List α) (f : α → List β) (p : β → Bool) :
    (lflat l f).countP p = (l.map (fun a => (f a).countP p)).sum := by
  induction l with
  | nil => simp [lflat]
  | cons x xs ih => simp [lflat, List.countP_append, ih]

theorem mem_firstSeenAux [DecidableEq α] (seen : List α) (l : List α) (x : α) :
    x ∈ firstSeenAux seen l ↔ x ∈ l ∧ x ∉ seen := by
  induction l generalizing seen with
  | nil => simp [firstSeenAux]
  | cons y ys ih =>
    rw [firstSeenAux]
    by_cases hy : y ∈ seen
    · rw [if_pos hy, ih]
      constructor
      · rintro ⟨hx, hs⟩
        exact ⟨List.mem_cons_of_mem y hx, hs⟩
      · rintro ⟨hx, hs⟩
        rcases List.mem_cons.mp hx with rfl | hx2
        · exact absurd hy hs
        · exact ⟨hx2, hs⟩
    · rw [if_neg hy]
      constructor
      · intro hmem
        rcases List.mem_cons.mp hmem with rfl | hx2
        · exact ⟨List.mem_cons_self x ys, hy⟩
        · obtain ⟨hx3, hs3⟩ := (ih (y :: seen)).mp hx2
          refine ⟨List.mem_cons_of_mem y hx3, ?_⟩
          intro hc
          exact hs3 (List.mem_cons_of_mem y hc)
      · rintro ⟨hx, hs⟩
        rcases List.mem_cons.mp hx with rfl | hx2
        · exact List.mem_cons_self x _
        · by_cases hxy : x = y
          · subst hxy
            exact List.mem_cons_self x _
          · refine List.mem_cons_of_mem y ((ih (y :: seen)).mpr ⟨hx2, ?_⟩)
            intro hc
            rcases List.mem_cons.mp hc with h1 | h1
            · exact hxy h1
            · exact hs h1

theorem nodup_firstSeenAux [DecidableEq α] (seen : List α) (l : List α) :
    (firstSeenAux seen l).Nodup := by
  induction l generalizing seen with
  | nil => simp [firstSeenAux]
  | cons y ys ih =>
    by_cases hy : y ∈ seen
    · simpa [firstSeenAux, if_pos hy] using ih seen
    · simp only [firstSeenAux, if_neg hy, List.nodup_cons]
      refine ⟨?_, ih (y :: seen)⟩
      intro hc
      exact ((mem_firstSeenAux (y :: seen) ys y).mp hc).2 (List.mem_cons_self y seen)

theorem firstSeenAux_congr [DecidableEq α] (s1 s2 : List α) (l : List α)
    (h : ∀ x, x ∈ s1 ↔ x ∈ s2) : firstSeenAux s1 l = firstSeenAux s2 l := by
  induction l generalizing s1 s2 with
  | nil => rfl
  | cons y ys ih =>
    by_cases hy : y ∈ s1
    · rw [firstSeenAux, firstSeenAux, if_pos hy, if_pos ((h y).mp hy)]
      exact ih s1 s2 h
    · rw [firstSeenAux, firstSeenAux, if_neg hy, if_neg (fun hc => hy ((h y).mpr hc))]
      refine congrArg (y :: ·) (ih (y :: s1) (y :: s2) ?_)
      intro x
      simp [h x]

theorem mem_firstSeen [DecidableEq α] (l : List α) (x : α) :
    x ∈ firstSeen l ↔ x ∈ l := by
  simp [firstSeen, mem_firstSeenAux]

theorem nodup_firstSeen [DecidableEq α] (l : List α) : (firstSeen l).Nodup :=
  nodup_firstSeenAux [] l

theorem cLookup_append_of_some {m : CMap} {k : Str} {c : Color} (l : CMap)
    (h : cLookup m k = some c) : cLookup (m ++ l) k = some c := by
  induction m with
  | nil => exact absurd h (by rw [cLookup]; exact Option.noConfusion)
  | cons kv rest ih =>
    obtain ⟨k2, c2⟩ := kv
    rw [cLookup] at h
    rw [List.cons_append, cLookup]
    by_cases hk : k = k2
    · rw [if_pos hk] at h ⊢
      exact h
    · rw [if_neg hk] at h ⊢
      exact ih h

theorem cLookup_append_self {m : CMap} {k : Str} (c : Color)
    (h : cLookup m k = none) : cLookup (m ++ [(k, c)]) k = some c := by
  induction m with
  | nil => simp [cLookup]
  | cons kv rest ih =>
    obtain ⟨k2, c2⟩ := kv
    rw [cLookup] at h
    rw [List.cons_append, cLookup]
    by_cases hk : k = k2
    · rw [if_pos hk] at h
      exact Option.noConfusion h
    · rw [if_neg hk] at h ⊢
      exact ih h

theorem cLookup_isNone_iff {m : CMap} {k : Str} :
    cLookup m k = none ↔ k ∉ m.map Prod.fst := by
  induction m with
  | nil =>
    constructor
    · intro _ hc
      exact absurd hc (List.not_mem_nil k)
    · intro _
      rfl
  | cons kv rest ih =>
    obtain ⟨k2, c2⟩ := kv
    rw [cLookup, List.map_cons]
    by_cases hk : k = k2
    · rw [if_pos hk]
      constructor
      · intro h
        exact Option.noConfusion h
      · intro hc
        refine absurd ?_ hc
        rw [hk]
        exact List.mem_cons_self k2 _
    · rw [if_neg hk, ih]
      constructor
      · intro h hc
        rcases List.mem_cons.mp hc with h1 | h1
        · exact hk h1
        · exact h h1
      · intro h hc
        exact h (List.mem_cons_of_mem k2 hc)

theorem mem_allPairs {l : List α} {p : α × α} (h : p ∈ allPairs l) :
    p.1 ∈ l ∧ p.2 ∈ l := by
  induction l with
  | nil => exact absurd h (List.not_mem_nil p)
  | cons x xs ih =>
    rw [allPairs] at h
    rcases List.mem_append.mp h with h1 | h1
    · obtain ⟨y, hy, hp⟩ := List.mem_map.mp h1
      subst hp
      exact ⟨List.mem_cons_self x xs, List.mem_cons_of_mem x hy⟩
    · obtain ⟨h2, h3⟩ := ih h1
      exact ⟨List.mem_cons_of_mem x h2, List.mem_cons_of_mem x h3⟩

/-- The Boolean test for a segment pair joining `p` and `q` in either order. -/
def pairJoins [DecidableEq α] (p q : α) (ab : α × α) : Bool :=
  decide (ab = (p, q)) || decide (ab = (q, p))

theorem countP_eq_one_of_nodup [DecidableEq α] {l : List α} {q : α}
    (hn : l.Nodup) (hm : q ∈ l) : l.countP (fun y => decide (y = q)) = 1 := by
  induction l with
  | nil => exact absurd hm (List.not_mem_nil q)
  | cons x xs ih =>
    rw [List.countP_cons]
    rcases List.mem_cons.mp hm with rfl | hq
    · have hx : q ∉ xs := (List.nodup_cons.mp hn).1
      rw [List.countP_eq_zero.mpr]
      · simp
      · intro a ha
        simp only [decide_eq_true_eq]
        intro hc
        exact hx (hc ▸ ha)
    · have hxq : ¬(x = q) := by
        intro hc
        exact (List.nodup_cons.mp hn).1 (hc ▸ hq)
      rw [ih (List.nodup_cons.mp hn).2 hq]
      simp [hxq]

theorem countP_pairJoins_allPairs [DecidableEq α] {l : List α} {p q : α}
    (hn : l.Nodup) (hp : p ∈ l) (hq : q ∈ l) (hne : p ≠ q) :
    (allPairs l).countP (pairJoins p q) = 1 := by
  induction l with
  | nil => exact absurd hp (List.not_mem_nil p)
  | cons x xs ih =>
    obtain ⟨hxn, hxs⟩ := List.nodup_cons.mp hn
    rw [allPairs, List.countP_append, List.countP_map]
    by_cases hxp : x = p
    · subst hxp
      have hqxs : q ∈ xs := by
        rcases List.mem_cons.mp hq with rfl | h1
        · exact absurd rfl hne
        · exact h1
      have h1 : xs.countP (pairJoins x q ∘ fun y => (x, y))
          = xs.countP (fun y => decide (y = q)) := by
        refine List.countP_congr ?_
        intro y _
        simp only [Function.comp_apply, pairJoins, Bool.or_eq_true, decide_eq_true_eq,
          Prod.mk.injEq]
        constructor
        · rintro (⟨_, rfl⟩ | ⟨hxq, _⟩)
          · rfl
          · exact absurd hxq hne
        · intro hyq
          exact Or.inl ⟨trivial, hyq⟩
      have h2 : (allPairs xs).countP (pairJoins x q) = 0 := by
        rw [List.countP_eq_zero]
        intro ab hab
        simp only [pairJoins, Bool.or_eq_true, decide_eq_true_eq]
        rintro (rfl | rfl)
        · exact hxn (mem_allPairs hab).1
        · exact hxn (mem_allPairs hab).2
      rw [h1, h2, countP_eq_one_of_nodup hxs hqxs]
    · by_cases hxq : x = q
      · subst hxq
        have hpxs : p ∈ xs := by
          rcases List.mem_cons.mp hp with rfl | h1
          · exact absurd rfl hxp
          · exact h1
        have h1 : xs.countP (pairJoins p x ∘ fun y => (x, y))
            = xs.countP (fun y => decide (y = p)) := by
          refine List.countP_congr ?_
          intro y _
          simp only [Function.comp_apply, pairJoins, Bool.or_eq_true, decide_eq_true_eq,
            Prod.mk.injEq]
          constructor
          · rintro (⟨hxp2, _⟩ | ⟨_, rfl⟩)
            · exact absurd hxp2 hxp
            · rfl
          · intro hyp
            exact Or.inr ⟨trivial, hyp⟩
        have h2 : (allPairs xs).countP (pairJoins p x) = 0 := by
          rw [List.countP_eq_zero]
          intro ab hab
          simp only [pairJoins, Bool.or_eq_true, decide_eq_true_eq]
          rintro (rfl | rfl)
          · exact hxn (mem_allPairs hab).2
          · exact hxn (mem_allPairs hab).1
        rw [h1, h2, countP_eq_one_of_nodup hxs hpxs]
      · have hpxs : p ∈ xs := by
          rcases List.mem_cons.mp hp with rfl | h1
          · exact absurd rfl hxp
          · exact h1
        have hqxs : q ∈ xs := by
          rcases List.mem_cons.mp hq with rfl | h1
          · exact absurd rfl hxq
          · exact h1
        have h1 : xs.countP (pairJoins p q ∘ fun y => (x, y)) = 0 := by
          rw [List.countP_eq_zero]
          intro y _
          simp only [Function.comp_apply, pairJoins, Bool.or_eq_true, decide_eq_true_eq,
            Prod.mk.injEq]
          rintro (⟨rfl, _⟩ | ⟨rfl, _⟩)
          · exact hxp rfl
          · exact hxq rfl
        rw [h1, ih hxs hpxs hqxs]

theorem distSq_symm (a b : Atom) : distSq a b = distSq b a := by
  rw [distSq, distSq]
  ring

theorem sum_map_eq_single [DecidableEq κ] (f : κ → Nat) :
    ∀ (ks : List κ) (k0 : κ), ks.Nodup → k0 ∈ ks → (∀ k ∈ ks, k ≠ k0 → f k = 0) →
      (ks.map f).sum = f k0 := by
  intro ks
  induction ks with
  | nil =>
    intro k0 _ h0
    exact absurd h0 (List.not_mem_nil k0)
  | cons k ks ih =>
    intro k0 hnd h0 hz
    obtain ⟨hkn, hksn⟩ := List.nodup_cons.mp hnd
    rw [List.map_cons, List.sum_cons]
    rcases List.mem_cons.mp h0 with rfl | hk0
    · have : ∀ k2 ∈ ks, f k2 = 0 := by
        intro k2 hk2
        refine hz k2 (List.mem_cons_of_mem k0 hk2) ?_
        intro hc
        exact hkn (hc ▸ hk2)
      have hs : (ks.map f).sum = 0 := by
        rw [List.sum_eq_zero]
        intro x hx
        obtain ⟨k2, hk2, rfl⟩ := List.mem_map.mp hx
        exact this k2 hk2
      rw [hs]
      omega
    · have hne : k ≠ k0 := by
        intro hc
        exact hkn (hc ▸ hk0)
      rw [hz k (List.mem_cons_self k ks) hne, ih k0 hksn hk0
        (fun k2 hk2 h2 => hz k2 (List.mem_cons_of_mem k hk2) h2)]
      omega

theorem genIntra_countP (norm : List Atom) (pq : Atom × Atom → Bool) :
    ∀ (keys : List (Str × Int × Str)) (st : CMap × List Seg),
      (keys.foldl (genIntraStep norm) st).2.countP (fun s => pq (s.a, s.b))
        = st.2.countP (fun s => pq (s.a, s.b))
          + (keys.map (fun k =>
              (intraPairs (norm.filter (fun a => decide (resKey a = k)))).countP pq)).sum := by
  intro keys
  induction keys with
  | nil =>
    intro st
    simp
  | cons k ks ih =>
    intro st
    rw [List.foldl_cons, ih, List.map_cons, List.sum_cons]
    have hstep : (genIntraStep norm st k).2.countP (fun s => pq (s.a, s.b))
        = st.2.countP (fun s => pq (s.a, s.b))
          + (intraPairs (norm.filter (fun a => decide (resKey a = k)))).countP pq := by
      rw [genIntraStep]
      cases hh : (norm.filter (fun a => decide (resKey a = k))).head? with
      | none =>
        have hg : norm.filter (fun a => decide (resKey a = k)) = [] :=
          List.head?_eq_none_iff.mp hh
        rw [hg]
        simp [intraPairs, allPairs]
      | some a0 =>
        simp only [List.countP_append, List.countP_map]
        have : (intraPairs (norm.filter (fun a => decide (resKey a = k)))).countP
            ((fun s => pq (s.a, s.b)) ∘ fun p =>
              (⟨p.1, p.2, (getChainColorB st.1 a0.chainID).1⟩ : Seg))
            = (intraPairs (norm.filter (fun a => decide (resKey a = k)))).countP pq := by
          refine List.countP_congr ?_
          intro ab _
          rfl
        rw [this]
    rw [hstep]
    omega

/-- The chain-colour map does not change the bond pairs emitted by
`generateIntraResidueBonds`. -/
theorem genIntra_pair_count (m : CMap) (keys : List (Str × Int × Str))
    (norm : List Atom) (pq : Atom × Atom → Bool) :
    (genIntra m keys norm).2.countP (fun s => pq (s.a, s.b))
      = (keys.map (fun k =>
          (intraPairs (norm.filter (fun a => decide (resKey a = k)))).countP pq)).sum := by
  rw [genIntra, genIntra_countP]
  simp

/-- Test atom used by the C1 theorems: residue (A, 1, ALA) at the origin. -/
def c1p : Atom :=
  { serial := 1, name := ['N'], resName := ['A', 'L', 'A'], chainID := ['A'], resSeq := 1,
    x := 0, y := 0, z := 0, occupancy := 1, tempFactor := 0, element := ['N'] }

/-- Test atom used by the C1 theorems: same residue as `c1p`, at `(1,1,1)` so
its squared distance from `c1p` is 3. -/
def c1q : Atom :=
  { serial := 2, name := ['C', 'A'], resName := ['A', 'L', 'A'], chainID := ['A'], resSeq := 1,
    x := 1, y := 1, z := 1, occupancy := 1, tempFactor := 0, element := ['C'] }

/-- Test atom used by the C1 theorems: same chain and residue sequence as
`c1p` but a different residue name, at the same position. -/
def c1r : Atom :=
  { serial := 3, name := ['C', 'B'], resName := ['G', 'L', 'Y'], chainID := ['A'], resSeq := 1,
    x := 0, y := 0, z := 0, occupancy := 1, tempFactor := 0, element := ['C'] }

/-- C1, counterexample.  The claim says intra-residue bond inference bonds a
same-residue pair iff `distSq ≤ 2.0`, keyed on (chainId, residueSeq) alone.
The code (`generateIntraResidueBonds`, `part_003` lines 225–256) instead
compares `distSq <= 4.0` (the squared 2.0 Å threshold): the pair `c1p`/`c1q`
at squared distance 3 > 2.0 is bonded anyway.  Moreover the grouping key also
contains the residue name: `c1p`/`c1r` share chainId and residueSeq and sit at
distance 0, yet get no bond. -/
theorem c1_counterexample :
    ((genIntra [] (firstSeen (([c1p, c1q].map normAtom).map resKey))
        ([c1p, c1q].map normAtom)).2.countP
        (fun s => pairJoins (normAtom c1p) (normAtom c1q) (s.a, s.b)) = 1)
    ∧ distSq (normAtom c1p) (normAtom c1q) = 3
    ∧ ¬(distSq (normAtom c1p) (normAtom c1q) ≤ 2)
    ∧ ((genIntra [] (firstSeen (([c1p, c1r].map normAtom).map resKey))
        ([c1p, c1r].map normAtom)).2.countP
        (fun s => pairJoins (normAtom c1p) (normAtom c1r) (s.a, s.b)) = 0)
    ∧ (normAtom c1p).chainID = (normAtom c1r).chainID
    ∧ (normAtom c1p).resSeq = (normAtom c1r).resSeq
    ∧ distSq (normAtom c1p) (normAtom c1r) = 0 := by
  with_unfolding_all decide

/-- C1 (amended).  For every list of atoms and every pair of distinct
(normalised) atoms with the same residue key (chainId, residueSeq and
residueName), intra-residue bond inference emits a bond between them if and
only if their squared Euclidean distance is at most 4.0 (the square of the
2.0 Å covalent threshold), and the pair appears exactly once in the output —
the count formula is independent of atom order and of the incoming
chain-colour map. -/
theorem c1_amended_intra_pair_once (atoms : List Atom) (m : CMap) (p q : Atom)
    (hnd : (atoms.map normAtom).Nodup)
    (hp : p ∈ atoms.map normAtom) (hq : q ∈ atoms.map normAtom)
    (hne : p ≠ q) (hres : resKey p = resKey q) :
    (genIntra m (firstSeen ((atoms.map normAtom).map resKey))
        (atoms.map normAtom)).2.countP (fun s => pairJoins p q (s.a, s.b))
      = if distSq p q ≤ 4 then 1 else 0 := by
  rw [genIntra_pair_count]
  have hk0mem : resKey p ∈ firstSeen ((atoms.map normAtom).map resKey) := by
    rw [mem_firstSeen]
    exact List.mem_map.mpr ⟨p, hp, rfl⟩
  have hzero : ∀ k ∈ firstSeen ((atoms.map normAtom).map resKey), k ≠ resKey p →
      (intraPairs ((atoms.map normAtom).filter (fun a => decide (resKey a = k)))).countP
        (pairJoins p q) = 0 := by
    intro k _ hkne
    rw [intraPairs, List.countP_filter, List.countP_eq_zero]
    intro ab hab
    simp only [Bool.and_eq_true, pairJoins, Bool.or_eq_true, decide_eq_true_eq]
    rintro ⟨(rfl | rfl), _⟩
    · have h1 := (List.mem_filter.mp (mem_allPairs hab).1).2
      rw [decide_eq_true_eq] at h1
      exact hkne (h1 ▸ rfl)
    · have h1 := (List.mem_filter.mp (mem_allPairs hab).1).2
      rw [decide_eq_true_eq] at h1
      exact hkne (by rw [← h1, ← hres])
  rw [sum_map_eq_single _ _ (resKey p) (nodup_firstSeen _) hk0mem hzero]
  have hgnd : ((atoms.map normAtom).filter (fun a => decide (resKey a = resKey p))).Nodup :=
    hnd.filter _
  have hpg : p ∈ (atoms.map normAtom).filter (fun a => decide (resKey a = resKey p)) :=
    List.mem_filter.mpr ⟨hp, by rw [decide_eq_true_eq]⟩
  have hqg : q ∈ (atoms.map normAtom).filter (fun a => decide (resKey a = resKey p)) :=
    List.mem_filter.mpr ⟨hq, by rw [decide_eq_true_eq, ← hres]⟩
  by_cases hd : distSq p q ≤ 4
  · rw [if_pos hd, intraPairs, List.countP_filter]
    have hcg : (allPairs ((atoms.map normAtom).filter (fun a => decide (resKey a = resKey p)))).countP
        (fun ab => pairJoins p q ab && decide (distSq ab.1 ab.2 ≤ 4))
        = (allPairs ((atoms.map normAtom).filter (fun a => decide (resKey a = resKey p)))).countP
          (pairJoins p q) := by
      refine List.countP_congr ?_
      intro ab _
      simp only [Bool.and_eq_true, pairJoins, Bool.or_eq_true, decide_eq_true_eq]
      constructor
      · rintro ⟨h1, _⟩
        exact h1
      · rintro (rfl | rfl)
        · exact ⟨Or.inl rfl, hd⟩
        · refine ⟨Or.inr rfl, ?_⟩
          rw [distSq_symm]
          exact hd
    rw [hcg, countP_pairJoins_allPairs hgnd hpg hqg hne]
  · rw [if_neg hd, intraPairs, List.countP_filter, List.countP_eq_zero]
    intro ab hab
    simp only [Bool.and_eq_true, pairJoins, Bool.or_eq_true, decide_eq_true_eq]
    rintro ⟨(rfl | rfl), hdc⟩
    · exact hd hdc
    · refine hd ?_
      rw [distSq_symm]
      exact hdc

/-- C1 witness: the amended theorem applied to the two-atom residue
`c1p`, `c1q` (squared distance 3 ≤ 4, so exactly one bond). -/
theorem c1_amended_witness :
    (genIntra [] (firstSeen (([c1p, c1q].map normAtom).map resKey))
        ([c1p, c1q].map normAtom)).2.countP
        (fun s => pairJoins (normAtom c1p) (normAtom c1q) (s.a, s.b))
      = if distSq (normAtom c1p) (normAtom c1q) ≤ 4 then 1 else 0 :=
  c1_amended_intra_pair_once [c1p, c1q] [] (normAtom c1p) (normAtom c1q)
    (by with_unfolding_all decide) (by with_unfolding_all decide)
    (by with_unfolding_all decide) (by with_unfolding_all decide)
    (by with_unfolding_all decide)

theorem mem_rpairs {cur next : List Atom} {p : Atom × Atom} :
    p ∈ rpairs cur next ↔ p.1 ∈ cur ∧ p.2 ∈ next := by
  rw [rpairs, mem_lflat]
  constructor
  · rintro ⟨a, ha, hp⟩
    obtain ⟨b, hb, hab⟩ := List.mem_map.mp hp
    subst hab
    exact ⟨ha, hb⟩
  · rintro ⟨h1, h2⟩
    exact ⟨p.1, h1, List.mem_map.mpr ⟨p.2, h2, by rw [Prod.mk.eta]⟩⟩

/-- Full characterisation of the strict-improvement scan of
`generateBackboneBonds`: the fold either keeps its input state (and then no
pair beats it), or returns the earliest pair attaining the minimum distance
below both the running bound and the 25.0 cutoff. -/
theorem closestPair_fold_spec (l : List (Atom × Atom)) :
    ∀ st : Option (Atom × Atom) × Rat,
      (l.foldl closestPairStep st = st
        ∧ ∀ q ∈ l, ¬(distSq q.1 q.2 < st.2 ∧ distSq q.1 q.2 < 25))
      ∨ (∃ l1 p l2, l = l1 ++ p :: l2
          ∧ l.foldl closestPairStep st = (some p, distSq p.1 p.2)
          ∧ distSq p.1 p.2 < 25 ∧ distSq p.1 p.2 < st.2
          ∧ (∀ q ∈ l1, distSq p.1 p.2 < distSq q.1 q.2)
          ∧ (∀ q ∈ l2, ¬(distSq q.1 q.2 < distSq p.1 p.2))) := by
  induction l with
  | nil =>
    intro st
    refine Or.inl ⟨rfl, ?_⟩
    intro q hq
    exact absurd hq (List.not_mem_nil q)
  | cons x xs ih =>
    intro st
    rw [List.foldl_cons]
    by_cases hx : distSq x.1 x.2 < st.2 ∧ distSq x.1 x.2 < 25
    · have hstep : closestPairStep st x = (some x, distSq x.1 x.2) := by
        simp only [closestPairStep]
        rw [if_pos hx]
      rw [hstep]
      rcases ih (some x, distSq x.1 x.2) with ⟨heq, hall⟩ |
        ⟨l1, p, l2, hsplit, heq, h25, hlt, hpre, hpost⟩
      · refine Or.inr ⟨[], x, xs, rfl, by rw [heq], hx.2, hx.1, ?_, ?_⟩
        · intro q hq
          exact absurd hq (List.not_mem_nil q)
        · intro q hq hc
          exact hall q hq ⟨hc, lt_trans hc hx.2⟩
      · refine Or.inr ⟨x :: l1, p, l2, by rw [hsplit, List.cons_append], heq, h25,
          lt_trans hlt hx.1, ?_, hpost⟩
        intro q hq
        rcases List.mem_cons.mp hq with rfl | hq2
        · exact hlt
        · exact hpre q hq2
    · have hstep : closestPairStep st x = st := by
        simp only [closestPairStep]
        rw [if_neg hx]
      rw [hstep]
      rcases ih st with ⟨heq, hall⟩ | ⟨l1, p, l2, hsplit, heq, h25, hlt, hpre, hpost⟩
      · refine Or.inl ⟨heq, ?_⟩
        intro q hq
        rcases List.mem_cons.mp hq with rfl | hq2
        · exact hx
        · exact hall q hq2
      · refine Or.inr ⟨x :: l1, p, l2, by rw [hsplit, List.cons_append], heq, h25, hlt, ?_,
          hpost⟩
        intro q hq
        rcases List.mem_cons.mp hq with rfl | hq2
        · by_contra hc
          push_neg at hc
          exact hx ⟨lt_of_le_of_lt hc hlt, lt_of_le_of_lt hc h25⟩
        · exact hpre q hq2

theorem lt_jsMaxValue_of_lt_25 {d : Rat} (h : d < 25) : d < jsMaxValue := by
  refine lt_trans h ?_
  rw [jsMaxValue]
  have h1 : (25 : Nat) < 2 ^ 1024 - 2 ^ 971 := by decide
  have h2 := (Nat.cast_lt (α := Rat)).mpr h1
  simpa using h2

theorem closestPair_none_iff (cur next : List Atom) :
    closestPair cur next = none ↔
      ∀ q ∈ rpairs cur next, ¬(distSq q.1 q.2 < 25) := by
  rw [closestPair]
  rcases closestPair_fold_spec (rpairs cur next) (none, jsMaxValue) with ⟨heq, hall⟩ |
    ⟨l1, p, l2, hsplit, heq, h25, _, _, _⟩
  · rw [heq]
    simp only [true_iff]
    intro q hq hc
    exact hall q hq ⟨lt_jsMaxValue_of_lt_25 hc, hc⟩
  · rw [heq]
    constructor
    · intro hc
      exact Option.noConfusion hc
    · intro hall2
      have hp : p ∈ rpairs cur next := by
        rw [hsplit]
        exact List.mem_append.mpr (Or.inr (List.mem_cons_self p l2))
      exact absurd h25 (hall2 p hp)

theorem closestPair_some_spec (cur next : List Atom) (p : Atom × Atom)
    (h : closestPair cur next = some p) :
    ∃ l1 l2, rpairs cur next = l1 ++ p :: l2
      ∧ distSq p.1 p.2 < 25
      ∧ (∀ q ∈ l1, distSq p.1 p.2 < distSq q.1 q.2)
      ∧ (∀ q ∈ l2, distSq p.1 p.2 ≤ distSq q.1 q.2) := by
  rw [closestPair] at h
  rcases closestPair_fold_spec (rpairs cur next) (none, jsMaxValue) with ⟨heq, _⟩ |
    ⟨l1, p2, l2, hsplit, heq, h25, _, hpre, hpost⟩
  · rw [heq] at h
    exact Option.noConfusion h
  · rw [heq] at h
    have hp : p2 = p := Option.some.inj h
    subst hp
    refine ⟨l1, l2, hsplit, h25, hpre, ?_⟩
    intro q hq
    exact not_lt.mp (hpost q hq)

/-- Strict lexicographic comparison of strings (used only to state the
claim's tie-break rule). -/
def strLt : Str → Str → Bool
  | [], [] => false
  | [], _ :: _ => true
  | _ :: _, [] => false
  | a :: as2, b :: bs => if a < b then true else if b < a then false else strLt as2 bs

/-- Test atom for C2: residue 1, name `X`, at the origin. -/
def c2x : Atom :=
  { serial := 1, name := ['X'], resName := ['A', 'L', 'A'], chainID := ['A'], resSeq := 1,
    x := 0, y := 0, z := 0, occupancy := 1, tempFactor := 0, element := ['C'] }

/-- Test atom for C2: residue 1, name `A`, at the origin (same distance to the
next residue as `c2x` but lexicographically smaller name). -/
def c2a : Atom :=
  { serial := 2, name := ['A'], resName := ['A', 'L', 'A'], chainID := ['A'], resSeq := 1,
    x := 0, y := 0, z := 0, occupancy := 1, tempFactor := 0, element := ['C'] }

/-- Test atom for C2: residue 2, name `B`, at distance 1 from residue 1. -/
def c2b : Atom :=
  { serial := 3, name := ['B'], resName := ['A', 'L', 'A'], chainID := ['A'], resSeq := 2,
    x := 1, y := 0, z := 0, occupancy := 1, tempFactor := 0, element := ['C'] }

/-- Test atom for C2: residue 1, single atom at the origin. -/
def c2p25 : Atom :=
  { serial := 4, name := ['P'], resName := ['A', 'L', 'A'], chainID := ['A'], resSeq := 1,
    x := 0, y := 0, z := 0, occupancy := 1, tempFactor := 0, element := ['C'] }

/-- Test atom for C2: residue 2, exactly 5 Å from `c2p25` (squared distance 25). -/
def c2q25 : Atom :=
  { serial := 5, name := ['Q'], resName := ['A', 'L', 'A'], chainID := ['A'], resSeq := 2,
    x := 5, y := 0, z := 0, occupancy := 1, tempFactor := 0, element := ['C'] }

/-- Test atom for C2 witness: a backbone carbon named `C`. -/
def c2c : Atom :=
  { serial := 6, name := ['C'], resName := ['A', 'L', 'A'], chainID := ['A'], resSeq := 1,
    x := 0, y := 0, z := 0, occupancy := 1, tempFactor := 0, element := ['C'] }

/-- Test atom for C2 witness: a backbone nitrogen named `N`. -/
def c2n : Atom :=
  { serial := 7, name := ['N'], resName := ['A', 'L', 'A'], chainID := ['A'], resSeq := 2,
    x := 1, y := 0, z := 0, occupancy := 1, tempFactor := 0, element := ['N'] }

/-- C2, counterexample.  On chain A with residue 1 = {`X`, `A`} (both at the
origin) and residue 2 = {`B`}, both candidate pairs are equally close, the
name pairing (`A`,`B`) is lexicographically smaller than (`X`,`B`), yet
`generateBackboneBonds` emits the (`X`,`B`) segment — ties go to the pair
first encountered in iteration order, not to the lexicographically smaller
names.  Also, a pair at squared distance exactly 25.0 is *not* connected: the
code requires `distSq < 25.0`, strictly, while the claim says `≤ 25.0`. -/
theorem c2_counterexample :
    ((genBackbone [] (firstSeen (([c2x, c2a, c2b].map normAtom).map (fun a => a.chainID)))
        ([c2x, c2a, c2b].map normAtom)).2.map (fun s => (s.a.name, s.b.name))
      = [(['X'], ['B'])])
    ∧ distSq (normAtom c2x) (normAtom c2b) = distSq (normAtom c2a) (normAtom c2b)
    ∧ strLt (normAtom c2a).name (normAtom c2x).name = true
    ∧ normAtom c2a ≠ normAtom c2x
    ∧ connectResidues [c2p25] [c2q25] = none
    ∧ distSq c2p25 c2q25 = 25 := by
  with_unfolding_all decide

/-- C2 (amended).  For two consecutive residues, `generateBackboneBonds`
connects the first atom named `C` of the first residue to the first atom named
`N` of the next when both exist; otherwise it connects the closest atom pair
whose squared distance is strictly less than 25.0 (none when no such pair),
and among equally-close minimal pairs it keeps the one encountered first in
the nested iteration order (current residue's atoms outer, next residue's
atoms inner) — the strict-improvement scan guarantees the chosen pair is
strictly closer than every pair before it and at most as far as every pair
after it. -/
theorem c2_amended_backbone_connection (cur next : List Atom) :
    ((∃ c ∈ cur, c.name = ['C']) → (∃ n ∈ next, n.name = ['N']) →
      ∃ c n, connectResidues cur next = some (c, n) ∧ c ∈ cur ∧ c.name = ['C']
        ∧ n ∈ next ∧ n.name = ['N'])
    ∧ (((∀ c ∈ cur, ¬(c.name = ['C'])) ∨ (∀ n ∈ next, ¬(n.name = ['N']))) →
        connectResidues cur next = closestPair cur next)
    ∧ (closestPair cur next = none ↔ ∀ q ∈ rpairs cur next, ¬(distSq q.1 q.2 < 25))
    ∧ (∀ p, closestPair cur next = some p →
        p.1 ∈ cur ∧ p.2 ∈ next ∧ distSq p.1 p.2 < 25
        ∧ (∀ q ∈ rpairs cur next, distSq p.1 p.2 ≤ distSq q.1 q.2 ∨
            ¬(distSq q.1 q.2 < 25))
        ∧ ∃ l1 l2, rpairs cur next = l1 ++ p :: l2
            ∧ (∀ q ∈ l1, distSq p.1 p.2 < distSq q.1 q.2)
            ∧ (∀ q ∈ l2, distSq p.1 p.2 ≤ distSq q.1 q.2)) := by
  refine ⟨?_, ?_, closestPair_none_iff cur next, ?_⟩
  · intro hc hn
    obtain ⟨c, hcm, hcn⟩ := hc
    obtain ⟨n, hnm, hnn⟩ := hn
    have hfc : (cur.find? (fun a => decide (a.name = ['C']))).isSome := by
      rw [List.find?_isSome]
      exact ⟨c, hcm, by rw [decide_eq_true_eq]; exact hcn⟩
    have hfn : (next.find? (fun a => decide (a.name = ['N']))).isSome := by
      rw [List.find?_isSome]
      exact ⟨n, hnm, by rw [decide_eq_true_eq]; exact hnn⟩
    obtain ⟨c2, hc2⟩ := Option.isSome_iff_exists.mp hfc
    obtain ⟨n2, hn2⟩ := Option.isSome_iff_exists.mp hfn
    have hcP := @List.find?_some Atom (fun a => decide (a.name = ['C'])) c2 cur hc2
    have hnP := @List.find?_some Atom (fun a => decide (a.name = ['N'])) n2 next hn2
    refine ⟨c2, n2, ?_, List.mem_of_find?_eq_some hc2, of_decide_eq_true hcP,
      List.mem_of_find?_eq_some hn2, of_decide_eq_true hnP⟩
    rw [connectResidues, hc2, hn2]
  · intro h
    rcases h with h | h
    · have hfc : cur.find? (fun a => decide (a.name = ['C'])) = none := by
        rw [List.find?_eq_none]
        intro a ha
        rw [decide_eq_true_eq]
        exact h a ha
      cases hfn2 : next.find? (fun a => decide (a.name = ['N'])) with
      | none => rw [connectResidues, hfc, hfn2]
      | some n2 => rw [connectResidues, hfc, hfn2]
    · have hfn : next.find? (fun a => decide (a.name = ['N'])) = none := by
        rw [List.find?_eq_none]
        intro a ha
        rw [decide_eq_true_eq]
        exact h a ha
      cases hfc2 : cur.find? (fun a => decide (a.name = ['C'])) with
      | none => rw [connectResidues, hfc2, hfn]
      | some c2 => rw [connectResidues, hfc2, hfn]
  · intro p hp
    obtain ⟨l1, l2, hsplit, h25, hpre, hpost⟩ := closestPair_some_spec cur next p hp
    have hpmem : p ∈ rpairs cur next := by
      rw [hsplit]
      exact List.mem_append.mpr (Or.inr (List.mem_cons_self p l2))
    obtain ⟨hp1, hp2⟩ := mem_rpairs.mp hpmem
    refine ⟨hp1, hp2, h25, ?_, l1, l2, hsplit, hpre, hpost⟩
    intro q hq
    rw [hsplit] at hq
    rcases List.mem_append.mp hq with hq1 | hq1
    · exact Or.inl (le_of_lt (hpre q hq1))
    · rcases List.mem_cons.mp hq1 with rfl | hq2
      · exact Or.inl le_rfl
      · exact Or.inl (hpost q hq2)

/-- C2 witness: the amended theorem applied to the residues `{c2c}` and
`{c2n}`, which carry `C` and `N` atoms and get the canonical peptide bond. -/
theorem c2_amended_witness :
    ∃ c n, connectResidues [c2c] [c2n] = some (c, n) ∧ c ∈ [c2c] ∧ c.name = ['C']
      ∧ n ∈ [c2n] ∧ n.name = ['N'] :=
  (c2_amended_backbone_connection [c2c] [c2n]).1
    (by with_unfolding_all decide) (by with_unfolding_all decide)

theorem startsWithL_head {c : Char} {t : Str} {l : Str}
    (h : startsWithL (c :: t) l = true) : ∃ cs, l = c :: cs := by
  cases l with
  | nil => exact absurd h (by rw [startsWithL]; exact Bool.noConfusion)
  | cons d ds =>
    rw [startsWithL, Bool.and_eq_true, decide_eq_true_eq] at h
    exact ⟨ds, by rw [h.1]⟩

/-- A line that starts an ATOM/HETATM record cannot also start a CONECT record. -/
theorem atomLine_not_conect {line : Str} (h : isAtomLine line = true) :
    startsWithL conectTag line = false := by
  rw [isAtomLine, Bool.or_eq_true] at h
  rcases h with h | h
  · rw [atomTag] at h
    obtain ⟨cs, rfl⟩ := startsWithL_head h
    rw [conectTag, startsWithL]
    simp
  · rw [hetatmTag] at h
    obtain ⟨cs, rfl⟩ := startsWithL_head h
    rw [conectTag, startsWithL]
    simp

theorem stepLine_atoms (st : PState) (line : Str) :
    (stepLine st line).atoms
      = st.atoms ++ (if isAtomLine line then [parseAtom line] else []) := by
  rw [stepLine]
  split_ifs with h1 h2 h3 h4 <;> simp

theorem stepLine_bonds (st : PState) (line : Str) :
    (stepLine st line).bonds = st.bonds ++ conectBondsOf line := by
  rw [stepLine, conectBondsOf]
  split_ifs with h1 h2 h3 h4 <;> simp_all [atomLine_not_conect]

/-- The line loop of `parsePDB` accumulates one atom per ATOM/HETATM line and
the CONECT pairs of each CONECT line, in order, independently of the other
record types. -/
theorem foldl_stepLine_spec (ls : List Str) :
    ∀ st : PState,
      (ls.foldl stepLine st).atoms
        = st.atoms ++ lflat ls (fun line => if isAtomLine line then [parseAtom line] else [])
      ∧ (ls.foldl stepLine st).bonds = st.bonds ++ lflat ls conectBondsOf := by
  induction ls with
  | nil =>
    intro st
    rw [lflat, lflat]
    constructor <;> simp
  | cons line rest ih =>
    intro st
    rw [List.foldl_cons]
    obtain ⟨ha, hb⟩ := ih (stepLine st line)
    constructor
    · rw [ha, stepLine_atoms, lflat, List.append_assoc]
    · rw [hb, stepLine_bonds, lflat, List.append_assoc]

theorem atomsOf_spec (text : Str) :
    atomsOf text
      = lflat (splitLines text) (fun line => if isAtomLine line then [parseAtom line] else []) := by
  rw [atomsOf]
  have h := (foldl_stepLine_spec (splitLines text) initState).1
  rw [h]
  rfl

/-- C4 (confirmed).  `parsePDB` raises exactly when the input is
trim-empty or yields zero atoms; the atom count is zero exactly when no line
starts an ATOM/HETATM record; and on success the returned atoms are the
accumulated atoms, at least one.  (The JavaScript `typeof text !== 'string'`
guard is the type of `text` in this embedding.) -/
theorem c4_parse_error_iff (text : Str) :
    ((∃ e, parsePDB text = .error e) ↔ (trimL text = [] ∨ atomsOf text = []))
    ∧ (atomsOf text = [] ↔ ∀ line ∈ splitLines text, isAtomLine line = false)
    ∧ (∀ st, parsePDB text = .ok st → st.atoms = atomsOf text ∧ 1 ≤ st.atoms.length) := by
  refine ⟨?_, ?_, ?_⟩
  · simp only [parsePDB]
    by_cases h1 : trimL text = []
    · rw [if_pos h1]
      simp only [h1, true_or, iff_true]
      exact ⟨invalidMsg, rfl⟩
    · rw [if_neg h1]
      by_cases h2 : ((splitLines text).foldl stepLine initState).atoms.length = 0
      · rw [if_pos h2]
        have h3 : atomsOf text = [] := List.length_eq_zero.mp h2
        simp only [h3, or_true, iff_true]
        exact ⟨noAtomsMsg, rfl⟩
      · rw [if_neg h2]
        constructor
        · rintro ⟨e, he⟩
          exact Except.noConfusion he
        · rintro (hc | hc)
          · exact absurd hc h1
          · refine absurd ?_ h2
            rw [show ((splitLines text).foldl stepLine initState).atoms = atomsOf text from rfl,
              hc]
            rfl
  · rw [atomsOf_spec, lflat_eq_nil]
    constructor
    · intro h line hl
      have h2 := h line hl
      by_contra hc
      rw [Bool.not_eq_false] at hc
      rw [if_pos hc] at h2
      exact List.noConfusion h2
    · intro h line hl
      rw [if_neg ?_]
      rw [h line hl]
      exact Bool.noConfusion
  · intro st hok
    simp only [parsePDB] at hok
    by_cases h1 : trimL text = []
    · rw [if_pos h1] at hok
      exact Except.noConfusion hok
    · rw [if_neg h1] at hok
      by_cases h2 : ((splitLines text).foldl stepLine initState).atoms.length = 0
      · rw [if_pos h2] at hok
        exact Except.noConfusion hok
      · rw [if_neg h2] at hok
        have hst := Except.ok.inj hok
        constructor
        · rw [← hst]
          rfl
        · have h3 : st.atoms.length
              = ((splitLines text).foldl stepLine initState).atoms.length := by
            rw [← hst]
          omega

/-- PDB text with one CA atom whose occupancy field reads ` 0.00`. -/
def c4text : Str :=
  ("ATOM      1  CA  ALA A   1      11.104  13.207   2.123  0.00 20.00           C").toList

/-- The parse state `parsePDB` returns for `c4text`. -/
def c4state : PState := (splitLines c4text).foldl stepLine initState

/-- C4 witness: the characterisation applied to the one-atom text `c4text`. -/
theorem c4_parse_error_iff_witness :
    parsePDB c4text = Except.ok c4state
    ∧ c4state.atoms = atomsOf c4text ∧ 1 ≤ c4state.atoms.length :=
  ⟨by with_unfolding_all rfl,
    (c4_parse_error_iff c4text).2.2 c4state (by with_unfolding_all rfl)⟩

/-- PDB text whose CONECT records name the atom itself (`CONECT 1 1`) and a
serial (99) that no parsed atom carries. -/
def c3text : Str :=
  (("ATOM      1  CA  ALA A   1      11.104  13.207   2.123  1.00 20.00           C")
    ++ "\nCONECT    1    1\nCONECT    1   99").toList

/-- The parse state `parsePDB` returns for `c3text`. -/
def c3state : PState := (splitLines c3text).foldl stepLine initState

/-- C3, counterexample.  `parsePDB` copies CONECT pairs into the output with no
validation: on `c3text` it succeeds and returns the self-bond `(1,1)` and the
bond `(1,99)` whose target serial 99 matches no parsed atom — both endpoints
existing and self-bonds forbidden is *not* an invariant of the parser. -/
theorem c3_counterexample :
    parsePDB c3text = Except.ok c3state
    ∧ c3state.bonds = [(some 1, some 1), (some 1, some 99)]
    ∧ (c3state.bonds.getD 0 (none, none)).1 = (c3state.bonds.getD 0 (none, none)).2
    ∧ c3state.atoms.map (fun a => ((a.serial : Int) : Rat)) = [1]
    ∧ ¬((99 : Rat) ∈ c3state.atoms.map (fun a => ((a.serial : Int) : Rat))) := by
  refine ⟨by with_unfolding_all rfl, ?_, ?_, ?_, ?_⟩ <;> with_unfolding_all decide

/-- C3 (amended).  Whenever `parsePDB` succeeds, the returned bond list is
exactly the concatenation, in line order, of the pairs read off the CONECT
lines (first serial paired with every numeric following serial) — no
existence check against the atom serials and no self-bond check is applied. -/
theorem c3_amended_bonds_are_conect_pairs (text : Str) (st : PState)
    (h : parsePDB text = .ok st) :
    st.bonds = lflat (splitLines text) conectBondsOf := by
  simp only [parsePDB] at h
  by_cases h1 : trimL text = []
  · rw [if_pos h1] at h
    exact Except.noConfusion h
  · rw [if_neg h1] at h
    by_cases h2 : ((splitLines text).foldl stepLine initState).atoms.length = 0
    · rw [if_pos h2] at h
      exact Except.noConfusion h
    · rw [if_neg h2] at h
      rw [← Except.ok.inj h]
      have hb := (foldl_stepLine_spec (splitLines text) initState).2
      rw [hb]
      rfl

/-- C3 witness: the amended characterisation applied to `c3text`. -/
theorem c3_amended_witness :
    c3state.bonds = lflat (splitLines c3text) conectBondsOf :=
  c3_amended_bonds_are_conect_pairs c3text c3state (by with_unfolding_all rfl)

/-- C10 (confirmed).  The `|| default` defaulting of `parsePDB` treats a field
that parses to exactly 0 the same as a missing/unparseable field: an
ATOM/HETATM line whose occupancy field parses to 0 comes back with occupancy
1.0, and a serial or residue-sequence field parsing to NaN or 0 comes back 0. -/
theorem c10_occupancy_zero_defaults (t : Str) (line : Str)
    (hl : line ∈ splitLines t) (ha : isAtomLine line = true) :
    (jsParseFloat (trimL (sliceL 54 60 line)) = some 0 →
      parseAtom line ∈ atomsOf t ∧ (parseAtom line).occupancy = 1)
    ∧ ((jsParseInt (trimL (sliceL 6 11 line)) = none ∨
        jsParseInt (trimL (sliceL 6 11 line)) = some 0) → (parseAtom line).serial = 0)
    ∧ ((jsParseInt (trimL (sliceL 22 26 line)) = none ∨
        jsParseInt (trimL (sliceL 22 26 line)) = some 0) → (parseAtom line).resSeq = 0) := by
  refine ⟨?_, ?_, ?_⟩
  · intro hocc
    constructor
    · rw [atomsOf_spec]
      refine mem_lflat.mpr ⟨line, hl, ?_⟩
      rw [if_pos ha]
      exact List.mem_cons_self _ _
    · show jsOrRat (jsParseFloat (trimL (sliceL 54 60 line))) 1 = 1
      rw [hocc, jsOrRat, if_pos rfl]
  · rintro (hser | hser) <;>
      · show jsOrInt (jsParseInt (trimL (sliceL 6 11 line))) 0 = 0
        rw [hser, jsOrInt]
        try rw [if_pos rfl]
  · rintro (hres | hres) <;>
      · show jsOrInt (jsParseInt (trimL (sliceL 22 26 line))) 0 = 0
        rw [hres, jsOrInt]
        try rw [if_pos rfl]

/-- C10 witness: the occupancy field ` 0.00` of `c4text`'s single ATOM line
parses to 0, and the parsed atom's occupancy is the 1.0 default. -/
theorem c10_occupancy_zero_witness :
    parseAtom c4text ∈ atomsOf c4text ∧ (parseAtom c4text).occupancy = 1 :=
  (c10_occupancy_zero_defaults c4text c4text (by with_unfolding_all decide)
    (by with_unfolding_all decide)).1 (by with_unfolding_all decide)

theorem assignAux_cons (st : CMap × Nat) (j : Str) (rest : List Str) :
    assignChainColorsAux st (j :: rest)
      = assignChainColorsAux
          (if (cLookup st.1 j).isSome then st
           else (st.1 ++ [(j, hexColor (chainColors20.getD (st.2 % chainColors20.length) 0))],
                 st.2 + 1))
          rest := rfl

theorem assignAux_preserves (ids : List Str) :
    ∀ (st : CMap × Nat) (k : Str) (c : Color), cLookup st.1 k = some c →
      cLookup (assignChainColorsAux st ids).1 k = some c := by
  induction ids with
  | nil =>
    intro st k c h
    exact h
  | cons j rest ih =>
    intro st k c h
    rw [assignAux_cons]
    by_cases hj : (cLookup st.1 j).isSome
    · rw [if_pos hj]
      exact ih st k c h
    · rw [if_neg hj]
      exact ih _ k c (cLookup_append_of_some _ h)

theorem assignAux_mem_isSome (ids : List Str) :
    ∀ (st : CMap × Nat), ∀ id ∈ ids, (cLookup (assignChainColorsAux st ids).1 id).isSome := by
  induction ids with
  | nil =>
    intro st id hid
    exact absurd hid (List.not_mem_nil id)
  | cons j rest ih =>
    intro st id hid
    rw [assignAux_cons]
    by_cases hj : (cLookup st.1 j).isSome
    · rw [if_pos hj]
      rcases List.mem_cons.mp hid with rfl | hid2
      · obtain ⟨c, hc⟩ := Option.isSome_iff_exists.mp hj
        rw [assignAux_preserves rest st id c hc]
        rfl
      · exact ih st id hid2
    · rw [if_neg hj]
      rcases List.mem_cons.mp hid with rfl | hid2
      · have hnone : cLookup st.1 id = none := Option.not_isSome_iff_eq_none.mp hj
        have hsome := cLookup_append_self
          (hexColor (chainColors20.getD (st.2 % chainColors20.length) 0)) hnone
        rw [assignAux_preserves rest _ id _ hsome]
        rfl
      · exact ih _ id hid2

theorem assignAux_noop (ids : List Str) :
    ∀ (st : CMap × Nat), (∀ id ∈ ids, (cLookup st.1 id).isSome) →
      assignChainColorsAux st ids = st := by
  induction ids with
  | nil =>
    intro st _
    rfl
  | cons j rest ih =>
    intro st h
    rw [assignAux_cons, if_pos (h j (List.mem_cons_self j rest))]
    exact ih st (fun id hid => h id (List.mem_cons_of_mem j hid))

theorem assignAux_fresh_order (ids : List Str) :
    ∀ (m : CMap) (n : Nat) (i : Nat),
      i < (firstSeenAux (m.map Prod.fst) ids).length →
      cLookup (assignChainColorsAux (m, n) ids).1
          ((firstSeenAux (m.map Prod.fst) ids).getD i ([]))
        = some (hexColor (chainColors20.getD ((n + i) % chainColors20.length) 0)) := by
  induction ids with
  | nil =>
    intro m n i h
    rw [firstSeenAux] at h
    exact absurd h (by simp)
  | cons j rest ih =>
    intro m n i h
    rw [assignAux_cons]
    by_cases hj : (cLookup m j).isSome
    · have hjmem : j ∈ m.map Prod.fst := by
        by_contra hc
        rw [← cLookup_isNone_iff] at hc
        rw [hc] at hj
        exact Bool.noConfusion hj
      rw [firstSeenAux, if_pos hjmem] at h ⊢
      rw [if_pos hj]
      exact ih m n i h
    · have hnone : cLookup m j = none := Option.not_isSome_iff_eq_none.mp hj
      have hjnot : j ∉ m.map Prod.fst := by
        rw [← cLookup_isNone_iff]
        exact hnone
      rw [if_neg hj]
      have hcongr : firstSeenAux (j :: m.map Prod.fst) rest
          = firstSeenAux
              ((m ++ [(j, hexColor (chainColors20.getD (n % chainColors20.length) 0))]).map
                Prod.fst) rest := by
        refine firstSeenAux_congr _ _ rest ?_
        intro x
        rw [List.map_append, List.map_cons, List.map_nil]
        constructor
        · intro hx
          rcases List.mem_cons.mp hx with rfl | hx2
          · exact List.mem_append.mpr (Or.inr (List.mem_cons_self x []))
          · exact List.mem_append.mpr (Or.inl hx2)
        · intro hx
          rcases List.mem_append.mp hx with hx2 | hx2
          · exact List.mem_cons_of_mem j hx2
          · rcases List.mem_cons.mp hx2 with rfl | hx3
            · exact List.mem_cons_self _ _
            · exact absurd hx3 (List.not_mem_nil x)
      rw [firstSeenAux, if_neg hjnot] at h ⊢
      cases i with
      | zero =>
        rw [List.getD_cons_zero]
        have hsome := cLookup_append_self
          (hexColor (chainColors20.getD (n % chainColors20.length) 0)) hnone
        rw [assignAux_preserves rest _ j _ hsome, Nat.add_zero]
      | succ i2 =>
        rw [List.getD_cons_succ]
        rw [List.length_cons] at h
        have h2 : i2 < (firstSeenAux (j :: m.map Prod.fst) rest).length := by omega
        rw [hcongr] at h2 ⊢
        have hr := ih
          (m ++ [(j, hexColor (chainColors20.getD (n % chainColors20.length) 0))]) (n + 1) i2 h2
        rw [hr]
        have harith : n + 1 + i2 = n + (i2 + 1) := by omega
        rw [harith]

/-- C6, counterexample.  `assignChainColors` restarts its `colorIndex` counter
at 0 on every call: after chain `A` has been assigned by a first call, a
second call that walks `A` then the new chain `B` gives `B` `palette[0]`
(0x1f77b4) — not `palette[1]` (0xff7f0e) as the claim's
`palette[count_of_previously_assigned_chains mod palette_length]` rule
demands, even though discovery order (`A` before `B`) is stable. -/
theorem c6_counterexample :
    cLookup (assignChainColorsVis (assignChainColorsVis [] [['A']]) [['A'], ['B']]) (['B'])
      = some (hexColor 0x1f77b4)
    ∧ (assignChainColorsVis [] [['A']]).length = 1
    ∧ chainColors20.getD (1 % chainColors20.length) 0 = 0xff7f0e
    ∧ hexColor 0x1f77b4 ≠ hexColor 0xff7f0e := by
  refine ⟨?_, ?_, ?_, ?_⟩ <;> with_unfolding_all decide

/-- C6 (amended).  `assignChainColors` never reassigns an existing chain
colour, is idempotent, and within a single call gives the i-th chain ID that
is new in that call (in first-seen order) the colour
`palette[i mod palette_length]` — the index counts only chains newly assigned
in the same call, restarting from 0 each call, rather than all previously
assigned chains.  With an empty map, chains `A` then `B` therefore still get
`palette[0]` and `palette[1]`. -/
theorem c6_amended_chain_colors (m : CMap) (ids : List Str) :
    (∀ k c, cLookup m k = some c → cLookup (assignChainColorsVis m ids) k = some c)
    ∧ assignChainColorsVis (assignChainColorsVis m ids) ids = assignChainColorsVis m ids
    ∧ (∀ i, i < (firstSeenAux (m.map Prod.fst) ids).length →
        cLookup (assignChainColorsVis m ids) ((firstSeenAux (m.map Prod.fst) ids).getD i ([]))
          = some (hexColor (chainColors20.getD (i % chainColors20.length) 0))) := by
  refine ⟨?_, ?_, ?_⟩
  · intro k c h
    exact assignAux_preserves ids (m, 0) k c h
  · rw [assignChainColorsVis, assignChainColorsVis,
      assignAux_noop ids ((assignChainColorsAux (m, 0) ids).1, 0) ?_]
    intro id hid
    exact assignAux_mem_isSome ids (m, 0) id hid
  · intro i h
    have hr := assignAux_fresh_order ids m 0 i h
    rw [Nat.zero_add] at hr
    exact hr

/-- C6 witness: the amended theorem applied to the empty map and the id list
`[A, B]` — `A` gets `palette[0]` and `B` gets `palette[1]`. -/
theorem c6_amended_witness :
    cLookup (assignChainColorsVis [] [['A'], ['B']])
        ((firstSeenAux (([] : CMap).map Prod.fst) [['A'], ['B']]).getD 0 ([]))
      = some (hexColor (chainColors20.getD (0 % chainColors20.length) 0))
    ∧ cLookup (assignChainColorsVis [] [['A'], ['B']])
        ((firstSeenAux (([] : CMap).map Prod.fst) [['A'], ['B']]).getD 1 ([]))
      = some (hexColor (chainColors20.getD (1 % chainColors20.length) 0)) :=
  ⟨(c6_amended_chain_colors [] [['A'], ['B']]).2.2 0 (by with_unfolding_all decide),
   (c6_amended_chain_colors [] [['A'], ['B']]).2.2 1 (by with_unfolding_all decide)⟩

theorem getChainColorB_self (m : CMap) (id : Str) :
    cLookup (getChainColorB m id).2 id = some (getChainColorB m id).1 := by
  rw [getChainColorB]
  cases h : cLookup m id with
  | some c => exact h
  | none => exact cLookup_append_self _ h

theorem getChainColorB_preserves (m : CMap) (id : Str) {k : Str} {c : Color}
    (h : cLookup m k = some c) : cLookup (getChainColorB m id).2 k = some c := by
  rw [getChainColorB]
  cases h2 : cLookup m id with
  | some c2 => exact h
  | none => exact cLookup_append_of_some _ h

theorem assignBAux_preserves (ids : List Str) :
    ∀ (st : CMap × Nat) (k : Str) (c : Color), cLookup st.1 k = some c →
      cLookup (assignChainColorsBAux st ids).1 k = some c := by
  induction ids with
  | nil =>
    intro st k c h
    exact h
  | cons j rest ih =>
    intro st k c h
    rw [show assignChainColorsBAux st (j :: rest)
        = assignChainColorsBAux
            (if (cLookup st.1 j).isSome then st
             else (st.1 ++ [(j, hexColor (chainColors15.getD (st.2 % chainColors15.length) 0))],
                   st.2 + 1))
            rest from rfl]
    by_cases hj : (cLookup st.1 j).isSome
    · rw [if_pos hj]
      exact ih st k c h
    · rw [if_neg hj]
      exact ih _ k c (cLookup_append_of_some _ h)

theorem assignChainColorsB_preserves (m : CMap) (ids : List Str) {k : Str} {c : Color}
    (h : cLookup m k = some c) : cLookup (assignChainColorsB m ids) k = some c :=
  assignBAux_preserves ids (m, 0) k c h

theorem mem_insSorted (key : α → Int) (a x : α) :
    ∀ l : List α, x ∈ insSorted key a l ↔ x = a ∨ x ∈ l := by
  intro l
  induction l with
  | nil =>
    rw [insSorted]
    constructor
    · intro h
      rcases List.mem_cons.mp h with rfl | h2
      · exact Or.inl rfl
      · exact absurd h2 (List.not_mem_nil x)
    · rintro (rfl | h2)
      · exact List.mem_cons_self x []
      · exact absurd h2 (List.not_mem_nil x)
  | cons y ys ih =>
    rw [insSorted]
    by_cases hk : key a < key y
    · rw [if_pos hk]
      constructor
      · intro h
        rcases List.mem_cons.mp h with rfl | h2
        · exact Or.inl rfl
        · exact Or.inr h2
      · rintro (rfl | h2)
        · exact List.mem_cons_self x _
        · exact List.mem_cons_of_mem a h2
    · rw [if_neg hk]
      constructor
      · intro h
        rcases List.mem_cons.mp h with rfl | h2
        · exact Or.inr (List.mem_cons_self x ys)
        · rcases (ih.mp h2) with h3 | h3
          · exact Or.inl h3
          · exact Or.inr (List.mem_cons_of_mem y h3)
      · rintro (rfl | h2)
        · exact List.mem_cons_of_mem y (ih.mpr (Or.inl rfl))
        · rcases List.mem_cons.mp h2 with rfl | h3
          · exact List.mem_cons_self x _
          · exact List.mem_cons_of_mem y (ih.mpr (Or.inr h3))

theorem mem_stableSortBy (key : α → Int) (x : α) (l : List α) :
    x ∈ stableSortBy key l ↔ x ∈ l := by
  rw [stableSortBy]
  have haux : ∀ (l2 : List α) (acc : List α),
      x ∈ l2.foldl (fun acc y => insSorted key y acc) acc ↔ x ∈ acc ∨ x ∈ l2 := by
    intro l2
    induction l2 with
    | nil =>
      intro acc
      rw [List.foldl_nil]
      constructor
      · exact Or.inl
      · rintro (h | h)
        · exact h
        · exact absurd h (List.not_mem_nil x)
    | cons y ys ih =>
      intro acc
      rw [List.foldl_cons, ih]
      rw [mem_insSorted]
      constructor
      · rintro ((rfl | h) | h)
        · exact Or.inr (List.mem_cons_self x ys)
        · exact Or.inl h
        · exact Or.inr (List.mem_cons_of_mem y h)
      · rintro (h | h)
        · exact Or.inl (Or.inr h)
        · rcases List.mem_cons.mp h with rfl | h2
          · exact Or.inl (Or.inl rfl)
          · exact Or.inr h2
  rw [haux l []]
  constructor
  · rintro (h | h)
    · exact absurd h (List.not_mem_nil x)
    · exact h
  · exact Or.inr

/-- Normalised atoms always carry a nonempty chain id. -/
theorem normAtom_chainID_ne_nil (a : Atom) : (normAtom a).chainID ≠ [] := by
  rw [normAtom]
  show jsOrStr a.chainID (['A']) ≠ []
  rw [jsOrStr]
  by_cases h : a.chainID = []
  · rw [if_pos h]
    exact List.noConfusion
  · rw [if_neg h]
    exact h

theorem jsOrStr_of_ne_nil {s : Str} (d : Str) (h : s ≠ []) : jsOrStr s d = s := by
  rw [jsOrStr, if_neg h]

/-- Every emitted segment's colour is the colour the final chain-colour map
holds for its first endpoint's (normalised) chain id. -/
def ColorInv (m : CMap) (segs : List Seg) : Prop :=
  ∀ s ∈ segs, cLookup m (jsOrStr s.a.chainID (['A'])) = some s.col

theorem genIntra_colorInv (norm : List Atom) (hn : ∀ a ∈ norm, a.chainID ≠ []) :
    ∀ (keys : List (Str × Int × Str)) (st : CMap × List Seg), ColorInv st.1 st.2 →
      ColorInv (keys.foldl (genIntraStep norm) st).1
        (keys.foldl (genIntraStep norm) st).2 := by
  intro keys
  induction keys with
  | nil =>
    intro st h
    exact h
  | cons k ks ih =>
    intro st h
    rw [List.foldl_cons]
    refine ih (genIntraStep norm st k) ?_
    intro s hs
    simp only [genIntraStep] at hs ⊢
    cases hh : (norm.filter (fun a => decide (resKey a = k))).head? with
    | none =>
      rw [hh] at hs
      exact h s hs
    | some a0 =>
      rw [hh] at hs
      rcases List.mem_append.mp hs with hs1 | hs1
      · exact getChainColorB_preserves st.1 a0.chainID (h s hs1)
      · obtain ⟨p, hp, rfl⟩ := List.mem_map.mp hs1
        have hp1 : p.1 ∈ norm.filter (fun a => decide (resKey a = k)) := by
          rw [intraPairs] at hp
          exact (mem_allPairs (List.mem_of_mem_filter hp)).1
        obtain ⟨hp1n, hp1k⟩ := List.mem_filter.mp hp1
        rw [decide_eq_true_eq] at hp1k
        have ha0 : a0 ∈ norm.filter (fun a => decide (resKey a = k)) :=
          List.mem_of_mem_head? (by rw [hh]; rfl)
        obtain ⟨ha0n, ha0k⟩ := List.mem_filter.mp ha0
        rw [decide_eq_true_eq] at ha0k
        have hchain : p.1.chainID = a0.chainID := by
          have h1 := congrArg Prod.fst hp1k
          have h2 := congrArg Prod.fst ha0k
          exact h1.trans h2.symm
        show cLookup (getChainColorB st.1 a0.chainID).2 (jsOrStr p.1.chainID (['A']))
          = some (getChainColorB st.1 a0.chainID).1
        rw [jsOrStr_of_ne_nil _ (hn p.1 hp1n), hchain]
        exact getChainColorB_self st.1 a0.chainID

theorem closestPair_mem {cur next : List Atom} {p : Atom × Atom}
    (h : closestPair cur next = some p) : p ∈ rpairs cur next := by
  obtain ⟨l1, l2, hsplit, _, _, _⟩ := closestPair_some_spec cur next p h
  rw [hsplit]
  exact List.mem_append.mpr (Or.inr (List.mem_cons_self p l2))

theorem connectResidues_mem {cur next : List Atom} {p : Atom × Atom}
    (h : connectResidues cur next = some p) : p.1 ∈ cur ∧ p.2 ∈ next := by
  rw [connectResidues] at h
  cases hfc : cur.find? (fun a => decide (a.name = ['C'])) with
  | some c =>
    cases hfn : next.find? (fun a => decide (a.name = ['N'])) with
    | some n =>
      rw [hfc, hfn] at h
      have hp := Option.some.inj h
      rw [← hp]
      exact ⟨List.mem_of_find?_eq_some hfc, List.mem_of_find?_eq_some hfn⟩
    | none =>
      rw [hfc, hfn] at h
      exact mem_rpairs.mp (closestPair_mem h)
  | none =>
    cases hfn : next.find? (fun a => decide (a.name = ['N'])) with
    | some n =>
      rw [hfc, hfn] at h
      exact mem_rpairs.mp (closestPair_mem h)
    | none =>
      rw [hfc, hfn] at h
      exact mem_rpairs.mp (closestPair_mem h)

theorem genBackbone_colorInv (norm : List Atom) (hn : ∀ a ∈ norm, a.chainID ≠ []) :
    ∀ (keys : List Str) (st : CMap × List Seg), ColorInv st.1 st.2 →
      ColorInv (keys.foldl (genBackboneStep norm) st).1
        (keys.foldl (genBackboneStep norm) st).2 := by
  intro keys
  induction keys with
  | nil =>
    intro st h
    exact h
  | cons c ks ih =>
    intro st h
    rw [List.foldl_cons]
    refine ih (genBackboneStep norm st c) ?_
    intro s hs
    simp only [genBackboneStep] at hs ⊢
    rcases List.mem_append.mp hs with hs1 | hs1
    · exact getChainColorB_preserves st.1 c (h s hs1)
    · obtain ⟨rr, hrr, hsome⟩ := List.mem_filterMap.mp hs1
      by_cases hgap : rr.2 - rr.1 > 1
      · rw [if_pos hgap] at hsome
        exact Option.noConfusion hsome
      · rw [if_neg hgap] at hsome
        obtain ⟨p, hp, hps⟩ := Option.map_eq_some'.mp hsome
        rw [← hps]
        have hmem := (connectResidues_mem hp).1
        have h2 := List.mem_of_mem_filter hmem
        have h3 := (mem_stableSortBy (fun a => a.resSeq) p.1 _).mp h2
        obtain ⟨h4, h5⟩ := List.mem_filter.mp h3
        rw [decide_eq_true_eq] at h5
        show cLookup (getChainColorB st.1 c).2 (jsOrStr p.1.chainID (['A']))
          = some (getChainColorB st.1 c).1
        rw [jsOrStr_of_ne_nil _ (hn p.1 h4), h5]
        exact getChainColorB_self st.1 c

theorem nnInner_segs (a : Nat × Atom) (col : Color) :
    ∀ (l : List (Nat × Atom)) (st2 : List (Int × Int) × List Seg) (s : Seg),
      s ∈ (l.foldl (nnInnerStep a col) st2).2 → s ∈ st2.2 ∨ (s.a = a.2 ∧ s.col = col) := by
  intro l
  induction l with
  | nil =>
    intro st2 s h
    exact Or.inl h
  | cons jb rest ih =>
    intro st2 s h
    rw [List.foldl_cons] at h
    rcases ih (nnInnerStep a col st2 jb) s h with h2 | h2
    · simp only [nnInnerStep] at h2
      by_cases hj : jb.1 = a.1
      · rw [if_pos hj] at h2
        exact Or.inl h2
      · rw [if_neg hj] at h2
        by_cases hk : (if a.2.serial < jb.2.serial then (a.2.serial, jb.2.serial)
            else (jb.2.serial, a.2.serial)) ∈ st2.1
        · rw [if_pos hk] at h2
          exact Or.inl h2
        · rw [if_neg hk] at h2
          by_cases hd : distSq a.2 jb.2 ≤ 4
          · rw [if_pos hd] at h2
            rcases List.mem_append.mp h2 with h3 | h3
            · exact Or.inl h3
            · rcases List.mem_cons.mp h3 with rfl | h4
              · exact Or.inr ⟨rfl, rfl⟩
              · exact absurd h4 (List.not_mem_nil s)
          · rw [if_neg hd] at h2
            exact Or.inl h2
    · exact Or.inr h2

theorem nnOuter_colorInv (grid : Grid) :
    ∀ (l : List (Nat × Atom)) (st : CMap × List (Int × Int) × List Seg),
      ColorInv st.1 st.2.2 →
      ColorInv (l.foldl (nnOuterStep grid) st).1
        (l.foldl (nnOuterStep grid) st).2.2 := by
  intro l
  induction l with
  | nil =>
    intro st h
    exact h
  | cons ia rest ih =>
    intro st h
    rw [List.foldl_cons]
    refine ih (nnOuterStep grid st ia) ?_
    intro s hs
    simp only [nnOuterStep] at hs ⊢
    rcases nnInner_segs ia (getChainColorB st.1 (jsOrStr ia.2.chainID (['A']))).1
        (neighborsFromGrid grid ia.2) (st.2.1, st.2.2) s hs with h2 | h2
    · exact getChainColorB_preserves st.1 (jsOrStr ia.2.chainID (['A'])) (h s h2)
    · rw [h2.1, h2.2]
      exact getChainColorB_self st.1 (jsOrStr ia.2.chainID (['A']))

theorem genNearestNeighbor_colorInv (m : CMap) (atoms : List Atom) :
    ColorInv (genNearestNeighbor m atoms).1 (genNearestNeighbor m atoms).2 := by
  simp only [genNearestNeighbor]
  refine nnOuter_colorInv _ _ _ ?_
  intro s hs
  exact absurd hs (List.not_mem_nil s)

/-- The segment accumulator of the backbone fold is write-only: starting from
`(m, s0)` yields the same map and `s0 ++` the segments of a `[]`-start. -/
theorem genBackbone_shift (norm : List Atom) :
    ∀ (keys : List Str) (st : CMap × List Seg),
      (keys.foldl (genBackboneStep norm) st).1
          = (keys.foldl (genBackboneStep norm) (st.1, [])).1
      ∧ (keys.foldl (genBackboneStep norm) st).2
          = st.2 ++ (keys.foldl (genBackboneStep norm) (st.1, [])).2 := by
  intro keys
  induction keys with
  | nil =>
    intro st
    constructor
    · rfl
    · rw [List.foldl_nil, List.foldl_nil, List.append_nil]
  | cons c ks ih =>
    intro st
    rw [List.foldl_cons, List.foldl_cons]
    obtain ⟨ihm1, ihs1⟩ := ih (genBackboneStep norm st c)
    obtain ⟨ihm2, ihs2⟩ := ih (genBackboneStep norm (st.1, []) c)
    have hm : (genBackboneStep norm st c).1 = (genBackboneStep norm (st.1, []) c).1 := rfl
    have hs : (genBackboneStep norm st c).2
        = st.2 ++ (genBackboneStep norm (st.1, []) c).2 := by
      simp only [genBackboneStep, List.nil_append]
    constructor
    · rw [ihm1, ihm2, hm]
    · rw [ihs1, ihs2, hs, hm, List.append_assoc]

/-- The colour invariant holds for the complete bond-segment pipeline of
`createBondsGeometry`. -/
theorem bondSegments_colorInv (m : CMap) (atoms : List Atom) :
    ColorInv (bondSegments m atoms).1 (bondSegments m atoms).2 := by
  simp only [bondSegments]
  have hn : ∀ a ∈ atoms.map normAtom, a.chainID ≠ [] := by
    intro a ha
    obtain ⟨b, _, rfl⟩ := List.mem_map.mp ha
    exact normAtom_chainID_ne_nil b
  have h1 : ColorInv (genIntra (assignChainColorsB m
        (firstSeen ((atoms.map normAtom).map (fun a => a.chainID))))
        (firstSeen ((atoms.map normAtom).map resKey)) (atoms.map normAtom)).1
      (genIntra (assignChainColorsB m
        (firstSeen ((atoms.map normAtom).map (fun a => a.chainID))))
        (firstSeen ((atoms.map normAtom).map resKey)) (atoms.map normAtom)).2 := by
    rw [genIntra]
    refine genIntra_colorInv _ hn _ _ ?_
    intro s hs
    exact absurd hs (List.not_mem_nil s)
  set norm := atoms.map normAtom with hnorm
  set r1 := genIntra (assignChainColorsB m (firstSeen (norm.map (fun a => a.chainID))))
    (firstSeen (norm.map resKey)) norm with hr1
  have h2 : ColorInv ((firstSeen (norm.map (fun a => a.chainID))).foldl
        (genBackboneStep norm) r1).1
      ((firstSeen (norm.map (fun a => a.chainID))).foldl (genBackboneStep norm) r1).2 :=
    genBackbone_colorInv norm hn _ r1 h1
  obtain ⟨hsh1, hsh2⟩ := genBackbone_shift norm (firstSeen (norm.map (fun a => a.chainID))) r1
  by_cases hs : r1.2 ++ (genBackbone r1.1 (firstSeen (norm.map (fun a => a.chainID))) norm).2 = []
  · rw [if_pos hs]
    exact genNearestNeighbor_colorInv _ atoms
  · rw [if_neg hs]
    intro s hsm
    have hmem : s ∈ ((firstSeen (norm.map (fun a => a.chainID))).foldl
        (genBackboneStep norm) r1).2 := by
      rw [hsh2]
      exact hsm
    have := h2 s hmem
    rw [hsh1] at this
    exact this

theorem geomOfSegs_positions_length (segs : List Seg) :
    (geomOfSegs segs).positions.length = 6 * segs.length :=
  lflat_length_const segs seg6pos 6 (fun _ _ => rfl)

theorem geomOfSegs_colors_length (segs : List Seg) :
    (geomOfSegs segs).colors.length = 6 * segs.length :=
  lflat_length_const segs seg6col 6 (fun _ _ => rfl)

theorem redColors_length : ∀ n, (redColors n).length = 3 * n := by
  intro n
  induction n with
  | zero => rfl
  | succ n2 ih =>
    rw [redColors, List.length_cons, List.length_cons, List.length_cons, ih]
    omega

theorem fallbackGeometry_lengths :
    fallbackGeometry.positions.length = 663 ∧ fallbackGeometry.colors.length = 663 := by
  constructor
  · rw [fallbackGeometry]
    rw [List.length_replicate]
    rfl
  · rw [fallbackGeometry]
    rw [redColors_length]
    rfl

theorem lflat_const_slice (f : Seg → List Rat) (h6 : ∀ s, (f s).length = 6) :
    ∀ (segs : List Seg) (i : Nat) (d : Seg), i < segs.length →
      ((lflat segs f).drop (6 * i)).take 6 = f (segs.getD i d) := by
  intro segs
  induction segs with
  | nil =>
    intro i d h
    exact absurd h (by simp)
  | cons s rest ih =>
    intro i d h
    cases i with
    | zero =>
      rw [lflat, Nat.mul_zero, List.drop_zero, List.getD_cons_zero, ← h6 s]
      exact List.take_left _ _
    | succ i2 =>
      rw [lflat, List.getD_cons_succ]
      have hlen : 6 * (i2 + 1) = (f s).length + 6 * i2 := by
        rw [h6 s]
        ring
      rw [hlen, List.drop_append]
      rw [List.length_cons] at h
      exact ih i2 d (by omega)

/-- Test atom for C5: an atom that is not an alpha carbon. -/
def c5atom : Atom :=
  { serial := 1, name := ['N'], resName := ['A', 'L', 'A'], chainID := ['A'], resSeq := 1,
    x := 0, y := 0, z := 0, occupancy := 1, tempFactor := 0, element := ['N'] }

/-- C5, counterexample.  The claim says the geometry builder never returns
null to the caller, citing `createLinesRepresentation`
(`ProteinVisualizer.js` lines 161–164) — but that very function returns
`null` whenever no line segment was generated: on an empty atom list and on a
list with no `CA` atom. -/
theorem c5_counterexample :
    (createLinesRepresentationV1 [] []).1 = none
    ∧ (createLinesRepresentationV1 [] [c5atom]).1 = none := by
  constructor <;> with_unfolding_all rfl

/-- C5 (amended).  The `part_003` geometry builder `createBondsGeometry` never
returns null or an empty buffer: for every input its geometry has a positive
number of position floats and a colour array of exactly matching length, and
on zero atoms it is the diagnostic red fallback sphere; but the
`createLinesRepresentation` variant of `ProteinVisualizer.js` returns null
instead of a fallback when it generates no segments. -/
theorem c5_amended_builder_never_empty (m : CMap) (atoms : List Atom) :
    0 < (createBondsGeometry m atoms).positions.length
    ∧ (createBondsGeometry m atoms).colors.length
        = (createBondsGeometry m atoms).positions.length
    ∧ createBondsGeometry m [] = fallbackGeometry := by
  refine ⟨?_, ?_, rfl⟩
  · simp only [createBondsGeometry]
    by_cases h0 : atoms = []
    · rw [if_pos h0, fallbackGeometry_lengths.1]
      omega
    · rw [if_neg h0]
      by_cases hs : (bondSegments m atoms).2 = []
      · rw [if_pos hs, fallbackGeometry_lengths.1]
        omega
      · rw [if_neg hs, geomOfSegs_positions_length]
        have hlen := List.length_pos.mpr hs
        omega
  · simp only [createBondsGeometry]
    by_cases h0 : atoms = []
    · rw [if_pos h0, fallbackGeometry_lengths.1, fallbackGeometry_lengths.2]
    · rw [if_neg h0]
      by_cases hs : (bondSegments m atoms).2 = []
      · rw [if_pos hs, fallbackGeometry_lengths.1, fallbackGeometry_lengths.2]
      · rw [if_neg hs, geomOfSegs_positions_length, geomOfSegs_colors_length]

/-- C7 (confirmed).  The line geometry built from the generated bond segments
has `positions.length = 6 * (number of emitted bonds)` and `colors.length =
positions.length`; the i-th 6-float block of positions is exactly the two
endpoints of the i-th bond (so vertices `2i`, `2i+1` form that bond) and its
colour block repeats that bond's colour twice — which is the colour the final
chain-colour map assigns to the bond's first endpoint's chain. -/
theorem c7_line_geometry_layout (m : CMap) (atoms : List Atom) (d : Seg) :
    (geomOfSegs (bondSegments m atoms).2).positions.length
        = 6 * (bondSegments m atoms).2.length
    ∧ (geomOfSegs (bondSegments m atoms).2).colors.length
        = (geomOfSegs (bondSegments m atoms).2).positions.length
    ∧ (∀ i, i < (bondSegments m atoms).2.length →
        ((geomOfSegs (bondSegments m atoms).2).positions.drop (6 * i)).take 6
            = seg6pos ((bondSegments m atoms).2.getD i d)
        ∧ ((geomOfSegs (bondSegments m atoms).2).colors.drop (6 * i)).take 6
            = seg6col ((bondSegments m atoms).2.getD i d))
    ∧ (∀ s ∈ (bondSegments m atoms).2,
        cLookup (bondSegments m atoms).1 (jsOrStr s.a.chainID (['A'])) = some s.col) := by
  refine ⟨geomOfSegs_positions_length _, ?_, ?_, bondSegments_colorInv m atoms⟩
  · rw [geomOfSegs_colors_length, geomOfSegs_positions_length]
  · intro i h
    exact ⟨lflat_const_slice seg6pos (fun _ => rfl) _ i d h,
           lflat_const_slice seg6col (fun _ => rfl) _ i d h⟩

/-- Test atoms for the C7 witness: a two-atom residue at squared distance 3. -/
def c7a1 : Atom :=
  { serial := 1, name := ['N'], resName := ['G', 'L', 'Y'], chainID := ['B'], resSeq := 4,
    x := 0, y := 0, z := 0, occupancy := 1, tempFactor := 0, element := ['N'] }

def c7a2 : Atom :=
  { serial := 2, name := ['C', 'A'], resName := ['G', 'L', 'Y'], chainID := ['B'], resSeq := 4,
    x := 1, y := 1, z := 1, occupancy := 1, tempFactor := 0, element := ['C'] }

def c7dseg : Seg := ⟨c7a1, c7a1, hexColor 0⟩

/-- C7 witness: the layout theorem applied to a concrete two-atom residue,
reading off the single bond's 6-float position and colour blocks. -/
theorem c7_line_geometry_layout_witness :
    ((geomOfSegs (bondSegments [] [c7a1, c7a2]).2).positions.drop (6 * 0)).take 6
        = seg6pos ((bondSegments [] [c7a1, c7a2]).2.getD 0 c7dseg)
    ∧ ((geomOfSegs (bondSegments [] [c7a1, c7a2]).2).colors.drop (6 * 0)).take 6
        = seg6col ((bondSegments [] [c7a1, c7a2]).2.getD 0 c7dseg) :=
  (c7_line_geometry_layout [] [c7a1, c7a2] c7dseg).2.2.1 0 (by with_unfolding_all decide)

/-- C8 (confirmed).  `createMaterial` always returns a usable (non-null)
material and never propagates a failure: on any loading or construction
failure it returns the magenta wireframe `MeshBasicMaterial` fallback, and on
success it returns the constructed `ShaderMaterial` with front-side rendering
for mesh geometry and double-side rendering for lines. -/
theorem c8_create_material_total (load : Except MatErr ShaderCode) (coerce : UVal → Color)
    (constructOk : Bool) (userUniforms : UMap) (isMesh : Bool) :
    ∃ mtl, createMaterial load coerce constructOk userUniforms isMesh = .ok (some mtl)
      ∧ (((∃ e, load = .error e) ∨ constructOk = false) → mtl = .basic 0xff00ff true)
      ∧ (∀ code, load = .ok code → constructOk = true →
          mtl = .shader code
            (ensureColor (ensureColor (mergeUniforms (standardUniforms userUniforms) userUniforms)
              uBaseColorKey coerce) uOutlineColorKey coerce)
            (if isMesh then .front else .double)) := by
  cases load with
  | error e =>
    refine ⟨.basic 0xff00ff true, rfl, fun _ => rfl, ?_⟩
    intro code hcode _
    exact Except.noConfusion hcode
  | ok code =>
    cases constructOk with
    | false =>
      refine ⟨.basic 0xff00ff true, rfl, fun _ => rfl, ?_⟩
      intro code2 _ hcon
      exact Bool.noConfusion hcon
    | true =>
      refine ⟨.shader code
        (ensureColor (ensureColor (mergeUniforms (standardUniforms userUniforms) userUniforms)
          uBaseColorKey coerce) uOutlineColorKey coerce)
        (if isMesh then .front else .double), rfl, ?_, ?_⟩
      · rintro (⟨e, he⟩ | hc)
        · exact Except.noConfusion he
        · exact Bool.noConfusion hc
      · intro code2 hcode _
        rw [← Except.ok.inj hcode]

/-- C8 witness: a failed shader load still yields the non-null magenta
wireframe fallback material. -/
theorem c8_create_material_total_witness :
    ∃ mtl, createMaterial (.error .loadFail) (fun _ => hexColor 0) true [] true
        = .ok (some mtl) ∧ mtl = .basic 0xff00ff true := by
  obtain ⟨mtl, h1, h2, _⟩ :=
    c8_create_material_total (.error .loadFail) (fun _ => hexColor 0) true [] true
  exact ⟨mtl, h1, h2 (Or.inl ⟨MatErr.loadFail, rfl⟩)⟩

/-- Renderer/camera state used by the C9 theorems: pixel ratio 2, which is
not the window's device pixel ratio of 1. -/
def c9state : RenderState := { width := 100, height := 80, pixelRatio := 2, aspect := 5 / 4 }

/-- C9, counterexample.  `exportPNG` stores the original size and aspect but
never stores the original pixel ratio: its `finally` block sets
`renderer.setPixelRatio(window.devicePixelRatio)`.  With a pre-call pixel
ratio of 2 and a device pixel ratio of 1, a successful export returns with
pixel ratio 1 ≠ 2 — the pixel ratio is *not* restored to its pre-call value. -/
theorem c9_counterexample :
    (exportPNG true true true 10 10 1 true c9state).1.pixelRatio = 1
    ∧ c9state.pixelRatio = 2
    ∧ (exportPNG true true true 10 10 1 true c9state).1.pixelRatio ≠ c9state.pixelRatio
    ∧ (exportPNG true true true 10 10 1 true c9state).2 = .ok () := by
  refine ⟨?_, ?_, ?_, ?_⟩
  · with_unfolding_all decide
  · with_unfolding_all decide
  · with_unfolding_all decide
  · with_unfolding_all rfl

/-- C9 (amended).  `exportPNG` raises `ExportError` before mutating any
renderer or camera state when the renderer/scene/camera is missing or the
target dimensions are not positive; on every other invocation — success or
failure of the capture body — the renderer size and camera aspect are
restored to their pre-call values, while the pixel ratio is set to
`window.devicePixelRatio` (the pre-call value only when the two coincide). -/
theorem c9_amended_export_restore (hasR hasS hasC : Bool) (w h dpr : Rat)
    (renderOk : Bool) (st : RenderState) :
    ((¬(hasR = true ∧ hasS = true ∧ hasC = true) ∨ w ≤ 0 ∨ h ≤ 0) →
      (exportPNG hasR hasS hasC w h dpr renderOk st).1 = st
      ∧ ∃ e, (exportPNG hasR hasS hasC w h dpr renderOk st).2 = .error e)
    ∧ ((hasR = true ∧ hasS = true ∧ hasC = true) → 0 < w → 0 < h →
      (exportPNG hasR hasS hasC w h dpr renderOk st).1.width = st.width
      ∧ (exportPNG hasR hasS hasC w h dpr renderOk st).1.height = st.height
      ∧ (exportPNG hasR hasS hasC w h dpr renderOk st).1.aspect = st.aspect
      ∧ (exportPNG hasR hasS hasC w h dpr renderOk st).1.pixelRatio = dpr
      ∧ (renderOk = false → ∃ e, (exportPNG hasR hasS hasC w h dpr renderOk st).2 = .error e)
      ∧ (renderOk = true → (exportPNG hasR hasS hasC w h dpr renderOk st).2 = .ok ())) := by
  constructor
  · intro hbad
    simp only [exportPNG]
    by_cases h1 : ¬(hasR = true ∧ hasS = true ∧ hasC = true)
    · rw [if_pos h1]
      exact ⟨rfl, ⟨.missing, rfl⟩⟩
    · rw [if_neg h1]
      have h2 : w ≤ 0 ∨ h ≤ 0 := by
        rcases hbad with hb | hb | hb
        · exact absurd hb h1
        · exact Or.inl hb
        · exact Or.inr hb
      rw [if_pos h2]
      exact ⟨rfl, ⟨.badDims, rfl⟩⟩
  · intro hok hw hh
    simp only [exportPNG]
    rw [if_neg (not_not.mpr hok), if_neg ?_]
    · refine ⟨rfl, rfl, rfl, rfl, ?_, ?_⟩
      · intro hr
        rw [hr]
        exact ⟨.renderFail, rfl⟩
      · intro hr
        rw [hr]
        rfl
    · rintro (hc | hc)
      · exact absurd hw (not_lt.mpr hc)
      · exact absurd hh (not_lt.mpr hc)

/-- C9 witness: a valid 10×10 export against `c9state` restores size and
aspect and sets the pixel ratio to the device pixel ratio 1. -/
theorem c9_amended_export_restore_witness :
    (exportPNG true true true 10 10 1 true c9state).1.width = c9state.width
    ∧ (exportPNG true true true 10 10 1 true c9state).1.height = c9state.height
    ∧ (exportPNG true true true 10 10 1 true c9state).1.aspect = c9state.aspect
    ∧ (exportPNG true true true 10 10 1 true c9state).1.pixelRatio = 1
    ∧ (exportPNG true true true 10 10 1 true c9state).2 = .ok () := by
  have hr := (c9_amended_export_restore true true true 10 10 1 true c9state).2
    ⟨rfl, rfl, rfl⟩ (by norm_num) (by norm_num)
  exact ⟨hr.1, hr.2.1, hr.2.2.1, hr.2.2.2.1, hr.2.2.2.2.2 rfl⟩

end APV
